import Mathlib

/-
Verification development for the Reddit user analysis repository layer.

Shallow embedding of:
- src/src/database/reddit_repository.py  (RedditRepository: get_user_contributions,
  get_thread, and the three incremental fetch helpers)
- src/src/database/reddit_cache.py       (RedditCache.add_submissions / add_comments,
  whose SQL is an insert with on_conflict_do_nothing keyed by id)
- src/src/models/cache.py                (UserContributionCacheStatus, ThreadCacheStatus)
- src/src/rag/tree.py                    (order_comments, CommentNode)

The DataSource (PushPullProvider) is embedded as explicit page streams: each
stream method of the provider yields a list of pages, newest first.  The cache
store read and upsert methods called by the repository (get_submission,
get_submission_comments, get_users_comments, get_users_submissions,
get_user_cache_status, get_thread_cache_status, upsert_user_cache_status,
upsert_thread_cache_status) have no implementation under src/ -- only their
callers exist -- so they are modelled from the spec, as marked on each one.

Record fields that no claim touches (score, ups, gilded, award metadata,
raw payload, fetched_at) are elided; they ride along unchanged in every
operation of the source, with body and title standing in for the content
carried by a row.
-/

set_option autoImplicit false
set_option linter.unnecessarySeqFocus false

namespace RedditAnalysis

/-- Dynamic value found in a parent_id field of a source record.  The Python
field is dynamically typed: tree.py guards against None, empty strings and
int values, so the embedding keeps all three shapes. -/
inductive PVal where
  | null : PVal
  | pstr : String → PVal
  | pint : Int → PVal
deriving DecidableEq, Repr

/-- Comment record, from src/src/models/reddit.py (content fields elided as
noted in the header). -/
structure Comment where
  id : String
  submission_id : Option String
  parent_id : PVal
  author : String
  body : String
  created_utc : Int
deriving DecidableEq, Repr

/-- Submission record, from src/src/models/reddit.py (content fields elided). -/
structure Submission where
  id : String
  author : String
  title : String
  created_utc : Int
deriving DecidableEq, Repr

/-- Per-user sync cursor record, from src/src/models/cache.py. -/
structure UserContributionCacheStatus where
  username : String
  newest_submission_cursor : Option Int
  newest_comment_cursor : Option Int
deriving DecidableEq, Repr

/-- Per-thread sync status record, from src/src/models/cache.py. -/
structure ThreadCacheStatus where
  submission_id : String
  newest_item_cursor : Option Int
  is_history_complete : Bool
deriving DecidableEq, Repr

/-- The durable store: the four tables the repository layer touches.
Row lists are kept in insertion order. -/
structure CacheState where
  submissions : List Submission
  comments : List Comment
  user_status : List UserContributionCacheStatus
  thread_status : List ThreadCacheStatus
deriving DecidableEq, Repr

/-- Insert-if-absent by key, the semantics of the source's
insert(...).on_conflict_do_nothing(index_elements=[id]) batch statement
(a row whose id already exists, also earlier in the same batch, is skipped). -/
def insertIfAbsent {α : Type} (key : α → String) (table : List α) (rows : List α) : List α :=
  rows.foldl (fun t r => if t.any (fun x => key x == key r) then t else t ++ [r]) table

/-- RedditCache.add_submissions from src/src/database/reddit_cache.py. -/
def add_submissions (s : CacheState) (subs : List Submission) : CacheState :=
  { s with submissions := insertIfAbsent Submission.id s.submissions subs }

/-- RedditCache.add_comments from src/src/database/reddit_cache.py. -/
def add_comments (s : CacheState) (cs : List Comment) : CacheState :=
  { s with comments := insertIfAbsent Comment.id s.comments cs }

/-- Modelled from the spec: point lookup by id ("Point lookups by id"), the
cache.get_submission call of the repository, absent from src/. -/
def get_submission (s : CacheState) (sid : String) : Option Submission :=
  s.submissions.find? (fun x => x.id == sid)

/-- Modelled from the spec: comments of one thread, the
cache.get_submission_comments call of the repository, absent from src/. -/
def get_submission_comments (s : CacheState) (sid : String) : List Comment :=
  s.comments.filter (fun c => c.submission_id == some sid)

/-- Modelled from the spec: author-scoped comment query ("author-scoped range
queries"), the cache.get_users_comments call, absent from src/. -/
def get_users_comments (s : CacheState) (username : String) : List Comment :=
  s.comments.filter (fun c => c.author == username)

/-- Modelled from the spec: author-scoped submission query, the
cache.get_users_submissions call, absent from src/. -/
def get_users_submissions (s : CacheState) (username : String) : List Submission :=
  s.submissions.filter (fun x => x.author == username)

/-- Modelled from the spec: read of the UserSyncCursor record by key,
absent from src/. -/
def get_user_cache_status (s : CacheState) (username : String) : Option UserContributionCacheStatus :=
  s.user_status.find? (fun st => st.username == username)

/-- Modelled from the spec: read of the ThreadSyncStatus record by key,
absent from src/. -/
def get_thread_cache_status (s : CacheState) (sid : String) : Option ThreadCacheStatus :=
  s.thread_status.find? (fun st => st.submission_id == sid)

/-- Cursor merge used by the status upserts: the spec requires monotonicity
enforced at write time ("reject or clamp a write that would move a cursor
backward"), so a backward proposal is clamped to the stored value. -/
def clampCursor : Option Int → Option Int → Option Int
  | none, proposed => proposed
  | some o, none => some o
  | some o, some p => some (max o p)

/-- Row-level form of the UserSyncCursor upsert: insert when the key is
absent, otherwise replace the keyed row with the proposal, its cursors
clamped against the stored row. -/
def upsert_user_status_row (l : List UserContributionCacheStatus)
    (st : UserContributionCacheStatus) : List UserContributionCacheStatus :=
  match l.find? (fun r => r.username == st.username) with
  | none => l ++ [st]
  | some old =>
      l.map (fun r =>
        if r.username == st.username then
          { st with
            newest_submission_cursor :=
              clampCursor old.newest_submission_cursor st.newest_submission_cursor,
            newest_comment_cursor :=
              clampCursor old.newest_comment_cursor st.newest_comment_cursor }
        else r)

/-- Modelled from the spec: upsert of the UserSyncCursor record
("last-writer-wins with monotonicity enforced at write time"), absent
from src/. -/
def upsert_user_cache_status (s : CacheState) (st : UserContributionCacheStatus) : CacheState :=
  { s with user_status := upsert_user_status_row s.user_status st }

/-- Row-level form of the ThreadSyncStatus upsert.  The cursor is clamped
as the spec demands; is_history_complete is last-writer-wins (the spec
attaches monotonicity of the flag to the code paths, every one of which
writes true). -/
def upsert_thread_status_row (l : List ThreadCacheStatus)
    (st : ThreadCacheStatus) : List ThreadCacheStatus :=
  match l.find? (fun r => r.submission_id == st.submission_id) with
  | none => l ++ [st]
  | some old =>
      l.map (fun r =>
        if r.submission_id == st.submission_id then
          { st with
            newest_item_cursor :=
              clampCursor old.newest_item_cursor st.newest_item_cursor }
        else r)

/-- Modelled from the spec: upsert of the ThreadSyncStatus record, absent
from src/. -/
def upsert_thread_cache_status (s : CacheState) (st : ThreadCacheStatus) : CacheState :=
  { s with thread_status := upsert_thread_status_row s.thread_status st }

/-- The DataSource (PushPullProvider): each stream yields a list of pages. -/
structure DataSource where
  user_submission_pages : String → List (List Submission)
  user_comment_pages : String → List (List Comment)
  thread_comment_pages : String → List (List Comment)
  submission_by_id : String → Option Submission

/-- The inner-loop stop test of the fetch helpers:
stop_at_timestamp is not None and item.created_utc <= stop_at_timestamp. -/
def stopHit (stop : Option Int) (t : Int) : Bool :=
  match stop with
  | some cutoff => decide (t ≤ cutoff)
  | none => false

/-- One page of the fetch loop: collected prefix, and whether the stop
condition fired inside this page (triggering the early return). -/
def takeUntilStop {α : Type} (key : α → Int) (stop : Option Int) : List α → List α × Bool
  | [] => ([], false)
  | x :: xs =>
    if stopHit stop (key x) then ([], true)
    else
      let r := takeUntilStop key stop xs
      (x :: r.1, r.2)

/-- The page loop shared by the three fetch helpers of RedditRepository:
consume pages in order, return early when an item at or before the stop
timestamp appears. -/
def fetchPages {α : Type} (key : α → Int) (stop : Option Int) : List (List α) → List α
  | [] => []
  | page :: rest =>
    let r := takeUntilStop key stop page
    if r.2 then r.1 else r.1 ++ fetchPages key stop rest

/-- RedditRepository._fetch_new_submissions. -/
def fetch_new_submissions (pages : List (List Submission)) (stop_at_timestamp : Option Int) : List Submission :=
  fetchPages Submission.created_utc stop_at_timestamp pages

/-- RedditRepository._fetch_new_comments_from_username. -/
def fetch_new_comments_from_username (pages : List (List Comment)) (stop_at_timestamp : Option Int) : List Comment :=
  fetchPages Comment.created_utc stop_at_timestamp pages

/-- RedditRepository._fetch_new_comments_from_submission. -/
def fetch_new_comments_from_submission (pages : List (List Comment)) (stop_at_timestamp : Option Int) : List Comment :=
  fetchPages Comment.created_utc stop_at_timestamp pages

/-- CacheConfig from src/src/database/reddit_repository.py. -/
inductive CacheConfig where
  | DEFAULT
  | NO_CACHE
  | CACHE_ONLY
  | FULL_SAVE
deriving DecidableEq, Repr

/-- Cursor written after a user-level sync: the newest fetched timestamp,
else the prior cursor, else None (the chained conditional of the source). -/
def newCursor {α : Type} (key : α → Int) (fetched : List α) (prior : Option Int) : Option Int :=
  match fetched with
  | x :: _ => some (key x)
  | [] => prior

/-- The stop timestamp handed to the submission fetch of a user-level sync:
status.newest_submission_cursor if status else None. -/
def user_submission_stop (s : CacheState) (username : String) : Option Int :=
  match get_user_cache_status s username with
  | some st => st.newest_submission_cursor
  | none => none

/-- The stop timestamp handed to the comment fetch of a user-level sync:
status.newest_comment_cursor if status else None. -/
def user_comment_stop (s : CacheState) (username : String) : Option Int :=
  match get_user_cache_status s username with
  | some st => st.newest_comment_cursor
  | none => none

/-- RedditRepository.get_user_contributions, all four modes, as a pure
state-passing function: result value paired with the cache state after
the call. -/
def get_user_contributions (ds : DataSource) (cfg : CacheConfig) (s : CacheState)
    (username : String) : (List Submission × List Comment) × CacheState :=
  match cfg with
  | .DEFAULT =>
    let cached_comments := get_users_comments s username
    let cached_submissions := get_users_submissions s username
    let new_submissions := fetch_new_submissions (ds.user_submission_pages username)
      (user_submission_stop s username)
    let new_comments := fetch_new_comments_from_username (ds.user_comment_pages username)
      (user_comment_stop s username)
    let s1 := if new_submissions.isEmpty then s else add_submissions s new_submissions
    let s2 := if new_comments.isEmpty then s1 else add_comments s1 new_comments
    let s3 := upsert_user_cache_status s2
      { username := username
        newest_submission_cursor := newCursor Submission.created_utc new_submissions
          (user_submission_stop s username)
        newest_comment_cursor := newCursor Comment.created_utc new_comments
          (user_comment_stop s username) }
    ((new_submissions ++ cached_submissions, new_comments ++ cached_comments), s3)
  | .NO_CACHE =>
    ((fetch_new_submissions (ds.user_submission_pages username) none,
      fetch_new_comments_from_username (ds.user_comment_pages username) none), s)
  | .CACHE_ONLY =>
    ((get_users_submissions s username, get_users_comments s username), s)
  | .FULL_SAVE =>
    let new_submissions := fetch_new_submissions (ds.user_submission_pages username) none
    let new_comments := fetch_new_comments_from_username (ds.user_comment_pages username) none
    let s1 := if new_submissions.isEmpty then s else add_submissions s new_submissions
    let s2 := if new_comments.isEmpty then s1 else add_comments s1 new_comments
    let s3 := upsert_user_cache_status s2
      { username := username
        newest_submission_cursor := newCursor Submission.created_utc new_submissions
          (user_submission_stop s username)
        newest_comment_cursor := newCursor Comment.created_utc new_comments
          (user_comment_stop s username) }
    ((new_submissions, new_comments), s3)

/-- Shared tail of the DEFAULT branch of RedditRepository.get_thread, entered
once the submission has been resolved: the is_history_complete dispatch. -/
def get_thread_default_sync (ds : DataSource) (s : CacheState) (submission_id : String)
    (submission : Submission) (cached_comments : List Comment)
    (status : Option ThreadCacheStatus) : Option (Submission × List Comment) × CacheState :=
  match status with
  | some st =>
    if st.is_history_complete then
      let new_comments := fetch_new_comments_from_submission
        (ds.thread_comment_pages submission_id) st.newest_item_cursor
      match new_comments with
      | [] => (some (submission, new_comments ++ cached_comments), s)
      | c :: _ =>
        let s1 := add_comments s new_comments
        let s2 := upsert_thread_cache_status s1
          { submission_id := submission_id
            newest_item_cursor := some c.created_utc
            is_history_complete := true }
        (some (submission, new_comments ++ cached_comments), s2)
    else
      let new_comments := fetch_new_comments_from_submission
        (ds.thread_comment_pages submission_id) none
      let s1 := if new_comments.isEmpty then s else add_comments s new_comments
      let s2 := upsert_thread_cache_status s1
        { submission_id := submission_id
          newest_item_cursor := newCursor Comment.created_utc new_comments none
          is_history_complete := true }
      (some (submission, new_comments ++ cached_comments), s2)
  | none =>
    let new_comments := fetch_new_comments_from_submission
      (ds.thread_comment_pages submission_id) none
    let s1 := if new_comments.isEmpty then s else add_comments s new_comments
    let s2 := upsert_thread_cache_status s1
      { submission_id := submission_id
        newest_item_cursor := newCursor Comment.created_utc new_comments none
        is_history_complete := true }
    (some (submission, new_comments ++ cached_comments), s2)

/-- RedditRepository.get_thread, all four modes. -/
def get_thread (ds : DataSource) (cfg : CacheConfig) (s : CacheState)
    (submission_id : String) : Option (Submission × List Comment) × CacheState :=
  match cfg with
  | .DEFAULT =>
    let cached_comments := get_submission_comments s submission_id
    let status := get_thread_cache_status s submission_id
    match get_submission s submission_id with
    | some submission =>
      get_thread_default_sync ds s submission_id submission cached_comments status
    | none =>
      match ds.submission_by_id submission_id with
      | none => (none, s)
      | some submission =>
        let s1 := add_submissions s [submission]
        get_thread_default_sync ds s1 submission_id submission cached_comments status
  | .NO_CACHE =>
    match ds.submission_by_id submission_id with
    | none => (none, s)
    | some submission =>
      let new_comments := fetch_new_comments_from_submission
        (ds.thread_comment_pages submission_id) none
      (some (submission, new_comments ++ []), s)
  | .CACHE_ONLY =>
    match get_submission s submission_id with
    | none => (none, s)
    | some submission =>
      let new_comments := get_submission_comments s submission_id
      (some (submission, new_comments ++ []), s)
  | .FULL_SAVE =>
    match ds.submission_by_id submission_id with
    | none => (none, s)
    | some submission =>
      let new_comments := fetch_new_comments_from_submission
        (ds.thread_comment_pages submission_id) none
      let s1 := add_submissions s [submission]
      let s2 := if new_comments.isEmpty then s1 else add_comments s1 new_comments
      let s3 := upsert_thread_cache_status s2
        { submission_id := submission_id
          newest_item_cursor := newCursor Comment.created_utc new_comments none
          is_history_complete := true }
      (some (submission, new_comments ++ []), s3)

/-
Embedding of src/src/rag/tree.py (order_comments).  The Python function
builds a dict of mutable nodes and appends each comment either to the root
list or to the replies list of its parent node.  The embedding keeps the
arena explicit: an association list from comment id to the list of child
ids (in append order), the root id list (in append order), and the list of
ids a warning was logged for.  The forest of CommentNode values is
materialized from the arena afterwards (buildNode below), which matches the
final value of the mutated Python structure.
-/

/-- The not parent_id or isinstance(parent_id, int) test of tree.py
(None, the empty string and every int fall into the corrupted branch;
a falsy int is already covered by the isinstance test). -/
def pvalCorrupted : PVal → Bool
  | .null => true
  | .pint _ => true
  | .pstr p => p == ""

/-- Arena state built by the order_comments loop. -/
structure TreeAcc where
  roots : List String
  children : List (String × List String)
  warned : List String
deriving DecidableEq, Repr

/-- Append a child id to the entry of the given parent id. -/
def addChild (m : List (String × List String)) (p cid : String) : List (String × List String) :=
  m.map (fun e => if e.1 == p then (e.1, e.2 ++ [cid]) else e)

/-- Membership test of the nodes dict (parent_id in nodes). -/
def hasNode (m : List (String × List String)) (p : String) : Bool :=
  m.any (fun e => e.1 == p)

/-- The nodes dict comprehension of tree.py: one entry per distinct id. -/
def initNodes (comments : List Comment) : List (String × List String) :=
  comments.foldl (fun m c => if hasNode m c.id then m else m ++ [(c.id, [])]) []

/-- Loop body of order_comments, one comment. -/
def orderStep (submission_id : String) (acc : TreeAcc) (c : Comment) : TreeAcc :=
  if pvalCorrupted c.parent_id then
    { acc with roots := acc.roots ++ [c.id], warned := acc.warned ++ [c.id] }
  else
    match c.parent_id with
    | .pstr p =>
      if p == submission_id then
        { acc with roots := acc.roots ++ [c.id] }
      else if hasNode acc.children p then
        { acc with children := addChild acc.children p c.id }
      else
        { acc with roots := acc.roots ++ [c.id], warned := acc.warned ++ [c.id] }
    | _ => acc
  -- the wildcard is unreachable: null and int parents are corrupted

/-- order_comments from src/src/rag/tree.py, arena form. -/
def order_comments (submission_id : String) (comments : List Comment) : TreeAcc :=
  comments.foldl (orderStep submission_id)
    { roots := [], children := initNodes comments, warned := [] }

/-- CommentNode from src/src/rag/tree.py. -/
inductive CommentNode where
  | mk : Comment → List CommentNode → CommentNode
deriving Repr

/-- Comment held by a node. -/
def CommentNode.comment : CommentNode → Comment
  | .mk c _ => c

/-- Replies list of a node. -/
def CommentNode.replies : CommentNode → List CommentNode
  | .mk _ rs => rs

mutual

/-- Number of nodes of one tree. -/
def nodeSize : CommentNode → Nat
  | .mk _ rs => 1 + forestSize rs

/-- Number of nodes of a forest. -/
def forestSize : List CommentNode → Nat
  | [] => 0
  | n :: ns => nodeSize n + forestSize ns

end

/-- Materialize one node of the arena.  The node content is the last
occurrence of the id in the input (the dict comprehension of the source
lets a later duplicate overwrite an earlier one).  Fuel bounds the depth;
comments.length + 1 is enough for every acyclic input. -/
def buildNode (comments : List Comment) (children : List (String × List String)) :
    Nat → String → Option CommentNode
  | 0, _ => none
  | fuel + 1, cid =>
    match comments.reverse.find? (fun c => c.id == cid) with
    | none => none
    | some c =>
      some (.mk c
        (((children.find? (fun e => e.1 == cid)).map Prod.snd |>.getD []).filterMap
          (fun k => buildNode comments children fuel k)))

/-- The forest returned by order_comments, materialized from the arena. -/
def buildForest (submission_id : String) (comments : List Comment) : List CommentNode :=
  let acc := order_comments submission_id comments
  acc.roots.filterMap (fun k => buildNode comments acc.children (comments.length + 1) k)

/-
Instrumented and abortable variants of the thread sync, for the
page-persistence ordering claims.  They mirror get_thread in DEFAULT mode
line by line; the traced variant additionally records the externally
visible events (a page being requested from the DataSource, a batch write,
a status write), the abortable variant lets the page stream raise after
its listed pages have been served.
-/

/-- Externally visible events of a sync. -/
inductive CacheEvent where
  | pageRequested : Nat → CacheEvent
  | commentsPersisted : List Comment → CacheEvent
  | submissionsPersisted : List Submission → CacheEvent
  | threadStatusWritten : ThreadCacheStatus → CacheEvent
deriving DecidableEq, Repr

/-- Fetch loop with its page-request events (pages indexed from idx). -/
def fetchPagesTraced (stop : Option Int) (idx : Nat) :
    List (List Comment) → List Comment × List CacheEvent
  | [] => ([], [])
  | page :: rest =>
    let r := takeUntilStop Comment.created_utc stop page
    if r.2 then (r.1, [CacheEvent.pageRequested idx])
    else
      let tail := fetchPagesTraced stop (idx + 1) rest
      (r.1 ++ tail.1, CacheEvent.pageRequested idx :: tail.2)

/-- get_thread, DEFAULT mode, with its event trace. -/
def get_thread_default_traced (ds : DataSource) (s : CacheState) (submission_id : String) :
    (Option (Submission × List Comment) × CacheState) × List CacheEvent :=
  let cached_comments := get_submission_comments s submission_id
  let status := get_thread_cache_status s submission_id
  let resolved : Option (Submission × CacheState × List CacheEvent) :=
    match get_submission s submission_id with
    | some submission => some (submission, s, [])
    | none =>
      match ds.submission_by_id submission_id with
      | none => none
      | some submission =>
        some (submission, add_submissions s [submission],
          [CacheEvent.submissionsPersisted [submission]])
  match resolved with
  | none => ((none, s), [])
  | some (submission, s0, evs0) =>
    match status with
    | some st =>
      if st.is_history_complete then
        let fr := fetchPagesTraced st.newest_item_cursor 0 (ds.thread_comment_pages submission_id)
        match fr.1 with
        | [] => ((some (submission, fr.1 ++ cached_comments), s0), evs0 ++ fr.2)
        | c :: _ =>
          let s1 := add_comments s0 fr.1
          let stNew : ThreadCacheStatus :=
            { submission_id := submission_id
              newest_item_cursor := some c.created_utc
              is_history_complete := true }
          let s2 := upsert_thread_cache_status s1 stNew
          ((some (submission, fr.1 ++ cached_comments), s2),
            evs0 ++ fr.2 ++ [CacheEvent.commentsPersisted fr.1, CacheEvent.threadStatusWritten stNew])
      else
        let fr := fetchPagesTraced none 0 (ds.thread_comment_pages submission_id)
        let s1 := if fr.1.isEmpty then s0 else add_comments s0 fr.1
        let stNew : ThreadCacheStatus :=
          { submission_id := submission_id
            newest_item_cursor := newCursor Comment.created_utc fr.1 none
            is_history_complete := true }
        let s2 := upsert_thread_cache_status s1 stNew
        ((some (submission, fr.1 ++ cached_comments), s2),
          evs0 ++ fr.2 ++
            (if fr.1.isEmpty then [] else [CacheEvent.commentsPersisted fr.1]) ++
            [CacheEvent.threadStatusWritten stNew])
    | none =>
      let fr := fetchPagesTraced none 0 (ds.thread_comment_pages submission_id)
      let s1 := if fr.1.isEmpty then s0 else add_comments s0 fr.1
      let stNew : ThreadCacheStatus :=
        { submission_id := submission_id
          newest_item_cursor := newCursor Comment.created_utc fr.1 none
          is_history_complete := true }
      let s2 := upsert_thread_cache_status s1 stNew
      ((some (submission, fr.1 ++ cached_comments), s2),
        evs0 ++ fr.2 ++
          (if fr.1.isEmpty then [] else [CacheEvent.commentsPersisted fr.1]) ++
          [CacheEvent.threadStatusWritten stNew])

/-- The property C9 asserts of a trace: between two successive page requests
a comment batch is persisted (scanned left to right; pending is true when a
page was requested and nothing was persisted since). -/
def eachPagePersistedBeforeNext (pending : Bool) : List CacheEvent → Bool
  | [] => true
  | CacheEvent.pageRequested _ :: evs =>
    if pending then false else eachPagePersistedBeforeNext true evs
  | CacheEvent.commentsPersisted _ :: evs => eachPagePersistedBeforeNext false evs
  | _ :: evs => eachPagePersistedBeforeNext pending evs

/-- Fetch loop over a stream that raises once its listed pages are
exhausted (when aborts is true): the early return avoids the failure, a
run that consumes the whole stream propagates it. -/
def fetchPagesAbortable (stop : Option Int) (aborts : Bool) :
    List (List Comment) → Except Unit (List Comment)
  | [] => if aborts then .error () else .ok []
  | page :: rest =>
    let r := takeUntilStop Comment.created_utc stop page
    if r.2 then .ok r.1
    else
      match fetchPagesAbortable stop aborts rest with
      | .error e => .error e
      | .ok tail => .ok (r.1 ++ tail)

/-- Shared tail of the abortable DEFAULT-mode thread sync, entered once the
submission has been resolved. -/
def get_thread_default_abortable_sync (ds : DataSource) (aborts : Bool) (s : CacheState)
    (submission_id : String) (submission : Submission) (cached_comments : List Comment)
    (status : Option ThreadCacheStatus) :
    Except Unit (Option (Submission × List Comment)) × CacheState :=
  match status with
  | some st =>
    if st.is_history_complete then
      match fetchPagesAbortable st.newest_item_cursor aborts (ds.thread_comment_pages submission_id) with
      | .error _ => (.error (), s)
      | .ok new_comments =>
        match new_comments with
        | [] => (.ok (some (submission, new_comments ++ cached_comments)), s)
        | c :: _ =>
          let s1 := add_comments s new_comments
          let s2 := upsert_thread_cache_status s1
            { submission_id := submission_id
              newest_item_cursor := some c.created_utc
              is_history_complete := true }
          (.ok (some (submission, new_comments ++ cached_comments)), s2)
    else
      match fetchPagesAbortable none aborts (ds.thread_comment_pages submission_id) with
      | .error _ => (.error (), s)
      | .ok new_comments =>
        let s1 := if new_comments.isEmpty then s else add_comments s new_comments
        let s2 := upsert_thread_cache_status s1
          { submission_id := submission_id
            newest_item_cursor := newCursor Comment.created_utc new_comments none
            is_history_complete := true }
        (.ok (some (submission, new_comments ++ cached_comments)), s2)
  | none =>
    match fetchPagesAbortable none aborts (ds.thread_comment_pages submission_id) with
    | .error _ => (.error (), s)
    | .ok new_comments =>
      let s1 := if new_comments.isEmpty then s else add_comments s new_comments
      let s2 := upsert_thread_cache_status s1
        { submission_id := submission_id
          newest_item_cursor := newCursor Comment.created_utc new_comments none
          is_history_complete := true }
      (.ok (some (submission, new_comments ++ cached_comments)), s2)

/-- get_thread, DEFAULT mode, over the abortable stream: a failure of the
comment stream propagates out of the call (the Python exception) together
with the cache state at that moment. -/
def get_thread_default_abortable (ds : DataSource) (aborts : Bool) (s : CacheState)
    (submission_id : String) : Except Unit (Option (Submission × List Comment)) × CacheState :=
  let cached_comments := get_submission_comments s submission_id
  let status := get_thread_cache_status s submission_id
  match get_submission s submission_id with
  | some submission =>
    get_thread_default_abortable_sync ds aborts s submission_id submission
      cached_comments status
  | none =>
    match ds.submission_by_id submission_id with
    | none => (.ok none, s)
    | some submission =>
      get_thread_default_abortable_sync ds aborts (add_submissions s [submission])
        submission_id submission cached_comments status

/-
Auxiliary notions used by the theorem statements.
-/

/-- Order on stored cursors: absent counts as the lowest value, so a
cursor may be set for the first time but never unset or decreased. -/
def cursorLE : Option Int → Option Int → Bool
  | none, _ => true
  | some _, none => false
  | some a, some b => decide (a ≤ b)

/-- Children recorded in the arena for one id. -/
def lookupChildren (m : List (String × List String)) (k : String) : Option (List String) :=
  (m.find? (fun e => e.1 == k)).map Prod.snd

/-- Total number of child attachments recorded in the arena. -/
def totalChildren (m : List (String × List String)) : Nat :=
  (m.map (fun e => e.2.length)).sum

/-- The id of some comment of the batch (the membership test of the nodes
dict). -/
def idPresent (comments : List Comment) (p : String) : Bool :=
  comments.any (fun c => c.id == p)

/-- Root classification of the order_comments loop, over an abstract key
membership function (the nodes dict holds one key per distinct id, constant
through the loop): corrupted parent field, direct reply to the submission,
or parent key absent. -/
def promotedToRootK (submission_id : String) (keys : String → Bool) (c : Comment) : Bool :=
  if pvalCorrupted c.parent_id then true
  else
    match c.parent_id with
    | .pstr p => p == submission_id || !keys p
    | _ => true

/-- Warning classification of the order_comments loop over an abstract key
membership function: corrupted parent field, or parent referenced but
absent. -/
def warnedAboutK (submission_id : String) (keys : String → Bool) (c : Comment) : Bool :=
  if pvalCorrupted c.parent_id then true
  else
    match c.parent_id with
    | .pstr p => !(p == submission_id) && !keys p
    | _ => true

/-- Child classification of the order_comments loop: comment c is appended
to the reply list of the node with id k. -/
def attachesTo (submission_id : String) (keys : String → Bool) (k : String)
    (c : Comment) : Bool :=
  match c.parent_id with
  | .pstr p => !(p == "") && !(p == submission_id) && keys p && k == p
  | _ => false

/-- A comment order_comments promotes to root rank: corrupted parent field,
direct reply to the submission, or parent id absent from the batch. -/
def promotedToRoot (submission_id : String) (comments : List Comment) (c : Comment) : Bool :=
  promotedToRootK submission_id (idPresent comments) c

/-- A comment order_comments warns about: corrupted parent field, or parent
referenced but absent from the batch. -/
def warnedAbout (submission_id : String) (comments : List Comment) (c : Comment) : Bool :=
  warnedAboutK submission_id (idPresent comments) c

/-- Well-formed parent reference: the submission id, or the id of a comment
of the same batch. -/
def parentWellFormed (submission_id : String) (comments : List Comment) (c : Comment) : Bool :=
  match c.parent_id with
  | .pstr p => p == submission_id || idPresent comments p
  | _ => false

/-- No page request occurs after a comment batch has been persisted: the
order the source actually follows (fetch the whole stream, then one batch
write). -/
def noRequestAfterPersist (seen : Bool) : List CacheEvent → Bool
  | [] => true
  | CacheEvent.pageRequested _ :: evs =>
    if seen then false else noRequestAfterPersist seen evs
  | CacheEvent.commentsPersisted _ :: evs => noRequestAfterPersist true evs
  | _ :: evs => noRequestAfterPersist seen evs

/-- True when an event is a page request. -/
def isPageRequest : CacheEvent → Bool
  | CacheEvent.pageRequested _ => true
  | _ => false

/-
Concrete records for the acceptance scenarios of the spec.
-/

/-- The submission of the coherence scenario. -/
def subT : Submission := { id := "T", author := "bob", title := "thread", created_utc := 0 }

/-- Root comment of the coherence scenario (bob). -/
def comC1 : Comment :=
  { id := "c1", submission_id := some "T", parent_id := .pstr "T",
    author := "bob", body := "b1", created_utc := 1 }

/-- Middle comment of the coherence scenario (charlie). -/
def comC2 : Comment :=
  { id := "c2", submission_id := some "T", parent_id := .pstr "c1",
    author := "charlie", body := "b2", created_utc := 2 }

/-- Leaf comment of the coherence scenario (alice), the one a user-level
sync caches. -/
def comC3 : Comment :=
  { id := "c3", submission_id := some "T", parent_id := .pstr "c2",
    author := "alice", body := "b3", created_utc := 3 }

/-- Cache after a user-level sync for alice: the submission and only
alice's comment are cached, no ThreadCacheStatus record exists. -/
def coherenceState : CacheState :=
  { submissions := [subT], comments := [comC3], user_status := [], thread_status := [] }

/-- DataSource of the coherence scenario: the thread stream yields every
comment of T, newest first, over two pages. -/
def coherenceSource : DataSource :=
  { user_submission_pages := fun _ => []
    user_comment_pages := fun _ => []
    thread_comment_pages := fun i => if i == "T" then [[comC3, comC2], [comC1]] else []
    submission_by_id := fun _ => none }

/-- Cache after a completed thread sync of T: all three comments cached,
status complete with cursor 3. -/
def completeState : CacheState :=
  { submissions := [subT], comments := [comC3, comC2, comC1], user_status := []
    thread_status := [{ submission_id := "T", newest_item_cursor := some 3,
                        is_history_complete := true }] }

/-- Comments with descending timestamps 5, 4, 3, 2 for the stop-cursor
scenario. -/
def streamE5 : Comment :=
  { id := "e5", submission_id := some "S", parent_id := .pstr "S",
    author := "u", body := "e5", created_utc := 5 }

/-- Timestamp 4 item of the stop-cursor scenario. -/
def streamE4 : Comment :=
  { id := "e4", submission_id := some "S", parent_id := .pstr "S",
    author := "u", body := "e4", created_utc := 4 }

/-- Timestamp 3 item of the stop-cursor scenario. -/
def streamE3 : Comment :=
  { id := "e3", submission_id := some "S", parent_id := .pstr "S",
    author := "u", body := "e3", created_utc := 3 }

/-- Timestamp 2 item of the stop-cursor scenario. -/
def streamE2 : Comment :=
  { id := "e2", submission_id := some "S", parent_id := .pstr "S",
    author := "u", body := "e2", created_utc := 2 }

/-- Tree scenario comment c1, direct reply to S1. -/
def treeC1 : Comment :=
  { id := "c1", submission_id := some "S1", parent_id := .pstr "S1",
    author := "u1", body := "t1", created_utc := 1 }

/-- Tree scenario comment c2, reply to c1. -/
def treeC2 : Comment :=
  { id := "c2", submission_id := some "S1", parent_id := .pstr "c1",
    author := "u2", body := "t2", created_utc := 2 }

/-- Tree scenario comment c3, reply to c1. -/
def treeC3 : Comment :=
  { id := "c3", submission_id := some "S1", parent_id := .pstr "c1",
    author := "u3", body := "t3", created_utc := 3 }

/-- Tree scenario comment c4, reply to c2. -/
def treeC4 : Comment :=
  { id := "c4", submission_id := some "S1", parent_id := .pstr "c2",
    author := "u4", body := "t4", created_utc := 4 }

/-- Orphan comment c5, whose parent is not in the batch. -/
def treeC5 : Comment :=
  { id := "c5", submission_id := some "S1", parent_id := .pstr "missing_id",
    author := "u5", body := "t5", created_utc := 5 }

/-
Theorems.  First the fetch-loop lemmas shared by several claims.
-/

theorem takeUntilStop_fst {α : Type} (key : α → Int) (stop : Option Int) (l : List α) :
    (takeUntilStop key stop l).1 = l.takeWhile (fun x => !stopHit stop (key x)) := by
  induction l with
  | nil => rfl
  | cons x xs ih =>
    by_cases h : stopHit stop (key x) <;>
      simp [takeUntilStop, List.takeWhile_cons, h, ih]

theorem takeUntilStop_snd {α : Type} (key : α → Int) (stop : Option Int) (l : List α) :
    (takeUntilStop key stop l).2 = l.any (fun x => stopHit stop (key x)) := by
  induction l with
  | nil => rfl
  | cons x xs ih =>
    by_cases h : stopHit stop (key x) <;>
      simp [takeUntilStop, h, ih]

theorem fetchPages_page_append {α : Type} (key : α → Int) (stop : Option Int)
    (page m : List α) :
    (if (takeUntilStop key stop page).2 then (takeUntilStop key stop page).1
     else (takeUntilStop key stop page).1 ++ m.takeWhile (fun x => !stopHit stop (key x)))
      = (page ++ m).takeWhile (fun x => !stopHit stop (key x)) := by
  induction page with
  | nil => simp [takeUntilStop]
  | cons x xs ih =>
    by_cases h : stopHit stop (key x)
    · simp [takeUntilStop, List.takeWhile_cons, h]
    · by_cases h2 : (takeUntilStop key stop xs).2 <;>
        simp [takeUntilStop, List.takeWhile_cons, h, h2] <;>
        simpa [h2] using ih

theorem fetchPages_eq {α : Type} (key : α → Int) (stop : Option Int)
    (pages : List (List α)) :
    fetchPages key stop pages = pages.flatten.takeWhile (fun x => !stopHit stop (key x)) := by
  induction pages with
  | nil => rfl
  | cons page rest ih =>
    rw [List.flatten_cons, ← fetchPages_page_append key stop page rest.flatten]
    by_cases h : (takeUntilStop key stop page).2 <;> simp [fetchPages, h, ih]

theorem fetchPages_none {α : Type} (key : α → Int) (pages : List (List α)) :
    fetchPages key none pages = pages.flatten := by
  rw [fetchPages_eq]
  simp [stopHit]

theorem mem_fetchPages_pos {α : Type} (key : α → Int) (t : Int)
    (pages : List (List α)) (x : α) (hx : x ∈ fetchPages key (some t) pages) :
    t < key x := by
  rw [fetchPages_eq] at hx
  have h := List.mem_takeWhile_imp hx
  simp only [stopHit, Bool.not_eq_true', decide_eq_false_iff_not, not_le] at h
  exact h

/-- C5: the three incremental fetch helpers stop at the first item whose
created_utc is at or before the stop cursor and exclude that item and
everything after it, over any paged stream; on the stream with timestamps
5, 4, 3, 2 and stop cursor 3 the result is exactly the items 5 and 4. -/
theorem fetch_helpers_stop_cursor :
    (∀ (pages : List (List Submission)) (t : Int),
      fetch_new_submissions pages (some t)
        = pages.flatten.takeWhile (fun x => decide (t < x.created_utc)))
    ∧ (∀ (pages : List (List Comment)) (t : Int),
      fetch_new_comments_from_username pages (some t)
        = pages.flatten.takeWhile (fun c => decide (t < c.created_utc)))
    ∧ (∀ (pages : List (List Comment)) (t : Int),
      fetch_new_comments_from_submission pages (some t)
        = pages.flatten.takeWhile (fun c => decide (t < c.created_utc)))
    ∧ fetch_new_comments_from_submission [[streamE5, streamE4, streamE3, streamE2]] (some 3)
        = [streamE5, streamE4] := by
  have hb : ∀ (t u : Int), (!stopHit (some t) u) = decide (t < u) := by
    intro t u
    by_cases h : u ≤ t
    · simp [stopHit, h, show ¬t < u by omega]
    · simp [stopHit, h, show t < u by omega]
  refine ⟨?_, ?_, ?_, ?_⟩
  · intro pages t
    rw [fetch_new_submissions, fetchPages_eq]
    simp only [hb]
  · intro pages t
    rw [fetch_new_comments_from_username, fetchPages_eq]
    simp only [hb]
  · intro pages t
    rw [fetch_new_comments_from_submission, fetchPages_eq]
    simp only [hb]
  · rfl

/-
Store-level lemmas: which components each write touches, and how the
status upserts treat cursors and the completeness flag.
-/

@[simp] theorem add_submissions_comments (s : CacheState) (l : List Submission) :
    (add_submissions s l).comments = s.comments := rfl

@[simp] theorem add_submissions_user_status (s : CacheState) (l : List Submission) :
    (add_submissions s l).user_status = s.user_status := rfl

@[simp] theorem add_submissions_thread_status (s : CacheState) (l : List Submission) :
    (add_submissions s l).thread_status = s.thread_status := rfl

@[simp] theorem add_comments_submissions (s : CacheState) (l : List Comment) :
    (add_comments s l).submissions = s.submissions := rfl

@[simp] theorem add_comments_user_status (s : CacheState) (l : List Comment) :
    (add_comments s l).user_status = s.user_status := rfl

@[simp] theorem add_comments_thread_status (s : CacheState) (l : List Comment) :
    (add_comments s l).thread_status = s.thread_status := rfl

@[simp] theorem upsert_user_cache_status_submissions (s : CacheState)
    (st : UserContributionCacheStatus) :
    (upsert_user_cache_status s st).submissions = s.submissions := rfl

@[simp] theorem upsert_user_cache_status_comments (s : CacheState)
    (st : UserContributionCacheStatus) :
    (upsert_user_cache_status s st).comments = s.comments := rfl

@[simp] theorem upsert_user_cache_status_thread_status (s : CacheState)
    (st : UserContributionCacheStatus) :
    (upsert_user_cache_status s st).thread_status = s.thread_status := rfl

@[simp] theorem upsert_thread_cache_status_submissions (s : CacheState)
    (st : ThreadCacheStatus) :
    (upsert_thread_cache_status s st).submissions = s.submissions := rfl

@[simp] theorem upsert_thread_cache_status_comments (s : CacheState)
    (st : ThreadCacheStatus) :
    (upsert_thread_cache_status s st).comments = s.comments := rfl

@[simp] theorem upsert_thread_cache_status_user_status (s : CacheState)
    (st : ThreadCacheStatus) :
    (upsert_thread_cache_status s st).user_status = s.user_status := rfl

theorem cursorLE_refl (c : Option Int) : cursorLE c c = true := by
  cases c <;> simp [cursorLE]

theorem cursorLE_clamp (old p : Option Int) : cursorLE old (clampCursor old p) = true := by
  cases old with
  | none => simp [cursorLE]
  | some o => cases p <;> simp [cursorLE, clampCursor, le_max_left]

theorem find?_map_keyed {α : Type} (key : α → String) (l : List α) (g : α → α)
    (hg : ∀ x, key (g x) = key x) (k : String) :
    (l.map g).find? (fun x => key x == k) = (l.find? (fun x => key x == k)).map g := by
  rw [List.find?_map]
  have hpred : ((fun x => key x == k) ∘ g) = (fun x => key x == k) := by
    funext x
    simp [Function.comp, hg]
  rw [hpred]

theorem get_user_cache_status_congr (s1 s2 : CacheState)
    (h : s1.user_status = s2.user_status) (k : String) :
    get_user_cache_status s1 k = get_user_cache_status s2 k := by
  unfold get_user_cache_status
  rw [h]

theorem get_thread_cache_status_congr (s1 s2 : CacheState)
    (h : s1.thread_status = s2.thread_status) (k : String) :
    get_thread_cache_status s1 k = get_thread_cache_status s2 k := by
  unfold get_thread_cache_status
  rw [h]

theorem upsert_user_status_advance (s : CacheState) (st : UserContributionCacheStatus)
    (k : String) (old : UserContributionCacheStatus)
    (hold : get_user_cache_status s k = some old) :
    ∃ new, get_user_cache_status (upsert_user_cache_status s st) k = some new ∧
      cursorLE old.newest_submission_cursor new.newest_submission_cursor = true ∧
      cursorLE old.newest_comment_cursor new.newest_comment_cursor = true := by
  unfold get_user_cache_status at hold ⊢
  unfold upsert_user_cache_status upsert_user_status_row
  cases hfind : s.user_status.find? (fun r => r.username == st.username) with
  | none =>
    refine ⟨old, ?_, cursorLE_refl _, cursorLE_refl _⟩
    simp [List.find?_append, hold]
  | some old0 =>
    have hrw := find?_map_keyed (fun r : UserContributionCacheStatus => r.username)
      s.user_status
      (fun r =>
        if r.username == st.username then
          { st with
            newest_submission_cursor :=
              clampCursor old0.newest_submission_cursor st.newest_submission_cursor,
            newest_comment_cursor :=
              clampCursor old0.newest_comment_cursor st.newest_comment_cursor }
        else r)
      (by
        intro x
        by_cases hx : x.username == st.username <;> simp [hx]
        exact (eq_of_beq hx).symm)
      k
    simp only [hrw, hold, Option.map_some]
    by_cases hk : old.username == st.username
    · have hks : old = old0 := by
        have h1 : old.username = k := by
          have := List.find?_some hold
          simpa using this
        have h2 : k = st.username := by rw [← h1]; exact eq_of_beq hk
        rw [h2] at hold
        rw [hold] at hfind
        exact (Option.some.injEq _ _).mp hfind
      refine ⟨_, rfl, ?_, ?_⟩
      · simp only [hk, if_true]
        rw [hks]
        exact cursorLE_clamp _ _
      · simp only [hk, if_true]
        rw [hks]
        exact cursorLE_clamp _ _
    · refine ⟨_, rfl, ?_, ?_⟩
      · simp only [hk, if_false, Bool.false_eq_true]
        exact cursorLE_refl _
      · simp only [hk, if_false, Bool.false_eq_true]
        exact cursorLE_refl _

theorem upsert_thread_status_advance (s : CacheState) (st : ThreadCacheStatus)
    (k : String) (old : ThreadCacheStatus)
    (hold : get_thread_cache_status s k = some old) :
    ∃ new, get_thread_cache_status (upsert_thread_cache_status s st) k = some new ∧
      (old.is_history_complete = true → st.is_history_complete = true →
        new.is_history_complete = true) ∧
      cursorLE old.newest_item_cursor new.newest_item_cursor = true := by
  unfold get_thread_cache_status at hold ⊢
  unfold upsert_thread_cache_status upsert_thread_status_row
  cases hfind : s.thread_status.find? (fun r => r.submission_id == st.submission_id) with
  | none =>
    refine ⟨old, ?_, fun h _ => h, cursorLE_refl _⟩
    simp [List.find?_append, hold]
  | some old0 =>
    have hrw := find?_map_keyed (fun r : ThreadCacheStatus => r.submission_id)
      s.thread_status
      (fun r =>
        if r.submission_id == st.submission_id then
          { st with
            newest_item_cursor := clampCursor old0.newest_item_cursor st.newest_item_cursor }
        else r)
      (by
        intro x
        by_cases hx : x.submission_id == st.submission_id <;> simp [hx]
        exact (eq_of_beq hx).symm)
      k
    simp only [hrw, hold, Option.map_some]
    by_cases hk : old.submission_id == st.submission_id
    · have hks : old = old0 := by
        have h1 : old.submission_id = k := by
          have := List.find?_some hold
          simpa using this
        have h2 : k = st.submission_id := by rw [← h1]; exact eq_of_beq hk
        rw [h2] at hold
        rw [hold] at hfind
        exact (Option.some.injEq _ _).mp hfind
      refine ⟨_, rfl, ?_, ?_⟩
      · simp only [hk, if_true]
        exact fun _ h2 => h2
      · simp only [hk, if_true]
        rw [hks]
        exact cursorLE_clamp _ _
    · refine ⟨_, rfl, ?_, ?_⟩
      · simp only [hk, if_false, Bool.false_eq_true]
        exact fun h _ => h
      · simp only [hk, if_false, Bool.false_eq_true]
        exact cursorLE_refl _

/-
Operation-level lemmas.
-/

theorem guc_thread_status (ds : DataSource) (cfg : CacheConfig) (s : CacheState)
    (u : String) : (get_user_contributions ds cfg s u).2.thread_status = s.thread_status := by
  cases cfg <;>
    simp only [get_user_contributions, upsert_user_cache_status_thread_status]
  case DEFAULT => split <;> split <;> simp
  case FULL_SAVE => split <;> split <;> simp

theorem guc_ignores_thread_status (ds : DataSource) (cfg : CacheConfig) (s : CacheState)
    (u : String) (ts : List ThreadCacheStatus) :
    get_user_contributions ds cfg { s with thread_status := ts } u
      = ((get_user_contributions ds cfg s u).1,
         { (get_user_contributions ds cfg s u).2 with thread_status := ts }) := by
  obtain ⟨a, b, c, d⟩ := s
  cases cfg
  case NO_CACHE => rfl
  case CACHE_ONLY => rfl
  case DEFAULT =>
    simp only [get_user_contributions, get_users_comments, get_users_submissions,
      user_submission_stop, user_comment_stop, get_user_cache_status,
      add_submissions, add_comments, upsert_user_cache_status]
    split_ifs <;> rfl
  case FULL_SAVE =>
    simp only [get_user_contributions, get_users_comments, get_users_submissions,
      user_submission_stop, user_comment_stop, get_user_cache_status,
      add_submissions, add_comments, upsert_user_cache_status]
    split_ifs <;> rfl

theorem guc_user_advance (ds : DataSource) (cfg : CacheConfig) (s : CacheState)
    (u k : String) (old : UserContributionCacheStatus)
    (hold : get_user_cache_status s k = some old) :
    ∃ new, get_user_cache_status (get_user_contributions ds cfg s u).2 k = some new ∧
      cursorLE old.newest_submission_cursor new.newest_submission_cursor = true ∧
      cursorLE old.newest_comment_cursor new.newest_comment_cursor = true := by
  cases cfg
  case NO_CACHE => exact ⟨old, hold, cursorLE_refl _, cursorLE_refl _⟩
  case CACHE_ONLY => exact ⟨old, hold, cursorLE_refl _, cursorLE_refl _⟩
  case DEFAULT =>
    have hbase : get_user_cache_status
        (if (fetch_new_comments_from_username (ds.user_comment_pages u)
              (user_comment_stop s u)).isEmpty then
          (if (fetch_new_submissions (ds.user_submission_pages u)
                (user_submission_stop s u)).isEmpty then s
           else add_submissions s (fetch_new_submissions (ds.user_submission_pages u)
                (user_submission_stop s u)))
         else add_comments
          (if (fetch_new_submissions (ds.user_submission_pages u)
                (user_submission_stop s u)).isEmpty then s
           else add_submissions s (fetch_new_submissions (ds.user_submission_pages u)
                (user_submission_stop s u)))
          (fetch_new_comments_from_username (ds.user_comment_pages u)
            (user_comment_stop s u))) k = some old := by
      split_ifs <;> exact hold
    exact upsert_user_status_advance _ _ k old hbase
  case FULL_SAVE =>
    have hbase : get_user_cache_status
        (if (fetch_new_comments_from_username (ds.user_comment_pages u) none).isEmpty then
          (if (fetch_new_submissions (ds.user_submission_pages u) none).isEmpty then s
           else add_submissions s (fetch_new_submissions (ds.user_submission_pages u) none))
         else add_comments
          (if (fetch_new_submissions (ds.user_submission_pages u) none).isEmpty then s
           else add_submissions s (fetch_new_submissions (ds.user_submission_pages u) none))
          (fetch_new_comments_from_username (ds.user_comment_pages u) none)) k
        = some old := by
      split_ifs <;> exact hold
    exact upsert_user_status_advance _ _ k old hbase

theorem gtds_advance (ds : DataSource) (s : CacheState) (sid : String) (sub : Submission)
    (cached : List Comment) (status : Option ThreadCacheStatus) (k : String)
    (old : ThreadCacheStatus) (hold : get_thread_cache_status s k = some old) :
    ∃ new, get_thread_cache_status
        (get_thread_default_sync ds s sid sub cached status).2 k = some new ∧
      (old.is_history_complete = true → new.is_history_complete = true) ∧
      cursorLE old.newest_item_cursor new.newest_item_cursor = true := by
  cases status with
  | none =>
    have hbase : get_thread_cache_status
        (if (fetch_new_comments_from_submission (ds.thread_comment_pages sid) none).isEmpty
         then s
         else add_comments s
          (fetch_new_comments_from_submission (ds.thread_comment_pages sid) none)) k
        = some old := by
      split_ifs <;> exact hold
    obtain ⟨new, h1, h2, h3⟩ := upsert_thread_status_advance _
      { submission_id := sid
        newest_item_cursor := newCursor Comment.created_utc
          (fetch_new_comments_from_submission (ds.thread_comment_pages sid) none) none
        is_history_complete := true } k old hbase
    exact ⟨new, h1, fun h => h2 h rfl, h3⟩
  | some st =>
    by_cases hc : st.is_history_complete
    · cases hf : fetch_new_comments_from_submission (ds.thread_comment_pages sid)
        st.newest_item_cursor with
      | nil =>
        refine ⟨old, ?_, fun h => h, cursorLE_refl _⟩
        show get_thread_cache_status
          (get_thread_default_sync ds s sid sub cached (some st)).2 k = some old
        simp only [get_thread_default_sync, hc, hf, if_true]
        exact hold
      | cons c rest =>
        obtain ⟨new, h1, h2, h3⟩ := upsert_thread_status_advance
          (add_comments s (c :: rest))
          { submission_id := sid
            newest_item_cursor := some c.created_utc
            is_history_complete := true } k old hold
        refine ⟨new, ?_, fun h => h2 h rfl, h3⟩
        show get_thread_cache_status
          (get_thread_default_sync ds s sid sub cached (some st)).2 k = some new
        simp only [get_thread_default_sync, hc, hf, if_true]
        exact h1
    · have hbase : get_thread_cache_status
          (if (fetch_new_comments_from_submission (ds.thread_comment_pages sid) none).isEmpty
           then s
           else add_comments s
            (fetch_new_comments_from_submission (ds.thread_comment_pages sid) none)) k
          = some old := by
        split_ifs <;> exact hold
      obtain ⟨new, h1, h2, h3⟩ := upsert_thread_status_advance _
        { submission_id := sid
          newest_item_cursor := newCursor Comment.created_utc
            (fetch_new_comments_from_submission (ds.thread_comment_pages sid) none) none
          is_history_complete := true } k old hbase
      refine ⟨new, ?_, fun h => h2 h rfl, h3⟩
      show get_thread_cache_status
        (get_thread_default_sync ds s sid sub cached (some st)).2 k = some new
      simp only [get_thread_default_sync, hc, if_false, Bool.false_eq_true]
      exact h1

theorem gt_thread_advance (ds : DataSource) (cfg : CacheConfig) (s : CacheState)
    (sid k : String) (old : ThreadCacheStatus)
    (hold : get_thread_cache_status s k = some old) :
    ∃ new, get_thread_cache_status (get_thread ds cfg s sid).2 k = some new ∧
      (old.is_history_complete = true → new.is_history_complete = true) ∧
      cursorLE old.newest_item_cursor new.newest_item_cursor = true := by
  cases cfg
  case NO_CACHE =>
    cases hs : ds.submission_by_id sid <;>
      exact ⟨old, by unfold get_thread; rw [hs]; exact hold, fun h => h, cursorLE_refl _⟩
  case CACHE_ONLY =>
    cases hs : get_submission s sid <;>
      exact ⟨old, by unfold get_thread; rw [hs]; exact hold, fun h => h, cursorLE_refl _⟩
  case DEFAULT =>
    cases hsub : get_submission s sid with
    | some sub =>
      obtain ⟨new, h1, h2, h3⟩ := gtds_advance ds s sid sub
        (get_submission_comments s sid) (get_thread_cache_status s sid) k old hold
      refine ⟨new, ?_, h2, h3⟩
      unfold get_thread
      rw [hsub]
      exact h1
    | none =>
      cases hds : ds.submission_by_id sid with
      | none =>
        exact ⟨old, by unfold get_thread; rw [hsub, hds]; exact hold, fun h => h,
          cursorLE_refl _⟩
      | some sub =>
        obtain ⟨new, h1, h2, h3⟩ := gtds_advance ds (add_submissions s [sub]) sid sub
          (get_submission_comments s sid) (get_thread_cache_status s sid) k old hold
        refine ⟨new, ?_, h2, h3⟩
        unfold get_thread
        rw [hsub, hds]
        exact h1
  case FULL_SAVE =>
    cases hds : ds.submission_by_id sid with
    | none =>
      exact ⟨old, by unfold get_thread; rw [hds]; exact hold, fun h => h, cursorLE_refl _⟩
    | some sub =>
      have hbase : get_thread_cache_status
          (if (fetch_new_comments_from_submission (ds.thread_comment_pages sid) none).isEmpty
           then add_submissions s [sub]
           else add_comments (add_submissions s [sub])
            (fetch_new_comments_from_submission (ds.thread_comment_pages sid) none)) k
          = some old := by
        split_ifs <;> exact hold
      obtain ⟨new, h1, h2, h3⟩ := upsert_thread_status_advance _
        { submission_id := sid
          newest_item_cursor := newCursor Comment.created_utc
            (fetch_new_comments_from_submission (ds.thread_comment_pages sid) none) none
          is_history_complete := true } k old hbase
      refine ⟨new, ?_, fun h => h2 h rfl, h3⟩
      unfold get_thread
      rw [hds]
      exact h1

theorem get_thread_default_eq (ds : DataSource) (s : CacheState) (sid : String)
    (sub : Submission) (hsub : get_submission s sid = some sub) :
    get_thread ds .DEFAULT s sid =
      get_thread_default_sync ds s sid sub (get_submission_comments s sid)
        (get_thread_cache_status s sid) := by
  unfold get_thread
  rw [hsub]

/-- C1: in default mode, when no ThreadCacheStatus record exists for the
submission (or one exists with is_history_complete false), get_thread
performs the unconditional full fetch with no stop cursor -- the fresh part
of the result is the whole thread stream -- and the returned comment list
contains every comment the stream yields, regardless of which comments a
prior user-level sync already cached. -/
theorem getThread_incomplete_forces_full_fetch (ds : DataSource) (s : CacheState)
    (sid : String) (sub : Submission) (hsub : get_submission s sid = some sub)
    (hst : get_thread_cache_status s sid = none ∨
      ∃ st, get_thread_cache_status s sid = some st ∧ st.is_history_complete = false) :
    (get_thread ds .DEFAULT s sid).1
        = some (sub, fetch_new_comments_from_submission (ds.thread_comment_pages sid) none
            ++ get_submission_comments s sid)
    ∧ fetch_new_comments_from_submission (ds.thread_comment_pages sid) none
        = (ds.thread_comment_pages sid).flatten
    ∧ ∀ c ∈ (ds.thread_comment_pages sid).flatten,
        c ∈ fetch_new_comments_from_submission (ds.thread_comment_pages sid) none
            ++ get_submission_comments s sid := by
  have hflat : fetch_new_comments_from_submission (ds.thread_comment_pages sid) none
      = (ds.thread_comment_pages sid).flatten := fetchPages_none _ _
  refine ⟨?_, hflat, ?_⟩
  · rw [get_thread_default_eq ds s sid sub hsub]
    rcases hst with h | ⟨st, h, hfalse⟩
    · rw [h]
      rfl
    · rw [h]
      simp only [get_thread_default_sync, hfalse, Bool.false_eq_true, if_false]
  · intro c hc
    exact List.mem_append_left _ (hflat ▸ hc)

/-- C1 witness: the coherence scenario -- submission T and only alice's
comment c3 cached, no status record -- where get_thread returns the full
stream c3, c2, c1 union the cached c3. -/
theorem getThread_incomplete_forces_full_fetch_witness :
    (get_thread_cache_status coherenceState "T" = none ∨
      ∃ st, get_thread_cache_status coherenceState "T" = some st ∧
        st.is_history_complete = false)
    ∧ (get_thread coherenceSource .DEFAULT coherenceState "T").1
        = some (subT, fetch_new_comments_from_submission
            (coherenceSource.thread_comment_pages "T") none
            ++ get_submission_comments coherenceState "T")
    ∧ comC1 ∈ fetch_new_comments_from_submission
        (coherenceSource.thread_comment_pages "T") none
        ++ get_submission_comments coherenceState "T" :=
  ⟨Or.inl rfl,
   (getThread_incomplete_forces_full_fetch coherenceSource coherenceState "T" subT rfl
      (Or.inl rfl)).1,
   (getThread_incomplete_forces_full_fetch coherenceSource coherenceState "T" subT rfl
      (Or.inl rfl)).2.2 comC1 (by decide)⟩

/-- C2: a user-level sync never writes ThreadCacheStatus (the stored
thread statuses are untouched, in every mode), never reads it (the call
is oblivious to the thread_status component), and across every repository
operation an is_history_complete flag that is true stays true. -/
theorem user_thread_domain_isolation :
    (∀ (ds : DataSource) (cfg : CacheConfig) (s : CacheState) (u : String),
      (get_user_contributions ds cfg s u).2.thread_status = s.thread_status)
    ∧ (∀ (ds : DataSource) (cfg : CacheConfig) (s : CacheState) (u : String)
        (ts : List ThreadCacheStatus),
      get_user_contributions ds cfg { s with thread_status := ts } u
        = ((get_user_contributions ds cfg s u).1,
           { (get_user_contributions ds cfg s u).2 with thread_status := ts }))
    ∧ (∀ (ds : DataSource) (cfg : CacheConfig) (s : CacheState) (u k : String),
      get_thread_cache_status (get_user_contributions ds cfg s u).2 k
        = get_thread_cache_status s k)
    ∧ (∀ (ds : DataSource) (cfg : CacheConfig) (s : CacheState) (sid k : String)
        (st : ThreadCacheStatus),
      get_thread_cache_status s k = some st → st.is_history_complete = true →
      ∃ st2, get_thread_cache_status (get_thread ds cfg s sid).2 k = some st2 ∧
        st2.is_history_complete = true) := by
  refine ⟨guc_thread_status, guc_ignores_thread_status, ?_, ?_⟩
  · intro ds cfg s u k
    exact get_thread_cache_status_congr _ _ (guc_thread_status ds cfg s u) k
  · intro ds cfg s sid k st h1 h2
    obtain ⟨st2, ha, hb, _⟩ := gt_thread_advance ds cfg s sid k st h1
    exact ⟨st2, ha, hb h2⟩

/-- C2 witness: at the concrete coherence scenario a user-level sync for
alice leaves the stored thread statuses untouched, and a thread sync of T
over a state whose status is already complete keeps the flag true. -/
theorem user_thread_domain_isolation_witness :
    ((get_user_contributions coherenceSource .DEFAULT completeState "alice").2.thread_status
      = completeState.thread_status)
    ∧ (∃ st2, get_thread_cache_status
        (get_thread coherenceSource .DEFAULT completeState "T").2 "T" = some st2 ∧
        st2.is_history_complete = true) :=
  ⟨user_thread_domain_isolation.1 coherenceSource .DEFAULT completeState "alice",
   user_thread_domain_isolation.2.2.2 coherenceSource .DEFAULT completeState "T" "T"
     { submission_id := "T", newest_item_cursor := some 3, is_history_complete := true }
     rfl rfl⟩

/-- C3: stored cursors only move forward.  At write time both status
upserts clamp a proposal against the stored row, and across every
get_user_contributions and get_thread call, in every mode, an existing
cursor never decreases (absent counting as the lowest value). -/
theorem cursors_monotone :
    (∀ (s : CacheState) (st : UserContributionCacheStatus) (k : String)
        (old : UserContributionCacheStatus),
      get_user_cache_status s k = some old →
      ∃ new, get_user_cache_status (upsert_user_cache_status s st) k = some new ∧
        cursorLE old.newest_submission_cursor new.newest_submission_cursor = true ∧
        cursorLE old.newest_comment_cursor new.newest_comment_cursor = true)
    ∧ (∀ (s : CacheState) (st : ThreadCacheStatus) (k : String) (old : ThreadCacheStatus),
      get_thread_cache_status s k = some old →
      ∃ new, get_thread_cache_status (upsert_thread_cache_status s st) k = some new ∧
        cursorLE old.newest_item_cursor new.newest_item_cursor = true)
    ∧ (∀ (ds : DataSource) (cfg : CacheConfig) (s : CacheState) (u k : String)
        (old : UserContributionCacheStatus),
      get_user_cache_status s k = some old →
      ∃ new, get_user_cache_status (get_user_contributions ds cfg s u).2 k = some new ∧
        cursorLE old.newest_submission_cursor new.newest_submission_cursor = true ∧
        cursorLE old.newest_comment_cursor new.newest_comment_cursor = true)
    ∧ (∀ (ds : DataSource) (cfg : CacheConfig) (s : CacheState) (sid k : String)
        (old : ThreadCacheStatus),
      get_thread_cache_status s k = some old →
      ∃ new, get_thread_cache_status (get_thread ds cfg s sid).2 k = some new ∧
        cursorLE old.newest_item_cursor new.newest_item_cursor = true) := by
  refine ⟨upsert_user_status_advance, ?_, guc_user_advance, ?_⟩
  · intro s st k old hold
    obtain ⟨new, h1, _, h3⟩ := upsert_thread_status_advance s st k old hold
    exact ⟨new, h1, h3⟩
  · intro ds cfg s sid k old hold
    obtain ⟨new, h1, _, h3⟩ := gt_thread_advance ds cfg s sid k old hold
    exact ⟨new, h1, h3⟩

/-- C3 witness: upserting a stale cursor proposal (1, below the stored 3)
for thread T is clamped, and a completed incremental get_thread keeps the
stored cursor at least 3. -/
theorem cursors_monotone_witness :
    (∃ new, get_thread_cache_status
        (upsert_thread_cache_status completeState
          { submission_id := "T", newest_item_cursor := some 1,
            is_history_complete := true }) "T" = some new ∧
      cursorLE (some 3) new.newest_item_cursor = true)
    ∧ (∃ new, get_thread_cache_status
        (get_thread coherenceSource .DEFAULT completeState "T").2 "T" = some new ∧
      cursorLE (some 3) new.newest_item_cursor = true) :=
  ⟨cursors_monotone.2.1 completeState
      { submission_id := "T", newest_item_cursor := some 1, is_history_complete := true }
      "T" { submission_id := "T", newest_item_cursor := some 3, is_history_complete := true }
      rfl,
   cursors_monotone.2.2.2 coherenceSource .DEFAULT completeState "T" "T"
      { submission_id := "T", newest_item_cursor := some 3, is_history_complete := true }
      rfl⟩

theorem insertIfAbsent_single_mem {α : Type} (key : α → String) (t : List α) (r : α)
    (h : t.any (fun x => key x == key r) = true) :
    insertIfAbsent key t [r] = t := by
  simp only [insertIfAbsent, List.foldl_cons, List.foldl_nil, h, if_true]

theorem insertIfAbsent_single_notmem {α : Type} (key : α → String) (t : List α) (r : α)
    (h : t.any (fun x => key x == key r) = false) :
    insertIfAbsent key t [r] = t ++ [r] := by
  simp only [insertIfAbsent, List.foldl_cons, List.foldl_nil, h, Bool.false_eq_true, if_false]

/-- C4: the batch upserts are idempotent insert-if-absent writes: writing a
record whose id is already stored (here, writing the same id twice in a
row) is a silent no-op that keeps the first-seen content, and a first write
of a fresh id stores exactly one row with that id. -/
theorem upsert_idempotent_first_write_wins (s : CacheState) (c c2 : Comment)
    (sub sub2 : Submission) (hc : c2.id = c.id) (hs : sub2.id = sub.id) :
    add_comments (add_comments s [c]) [c2] = add_comments s [c]
    ∧ ((s.comments.filter (fun r => r.id == c.id) = []) →
        (add_comments s [c]).comments.filter (fun r => r.id == c.id) = [c])
    ∧ add_submissions (add_submissions s [sub]) [sub2] = add_submissions s [sub]
    ∧ ((s.submissions.filter (fun r => r.id == sub.id) = []) →
        (add_submissions s [sub]).submissions.filter (fun r => r.id == sub.id) = [sub]) := by
  refine ⟨?_, ?_, ?_, ?_⟩
  · have hmem : ((add_comments s [c]).comments.any (fun x => x.id == c2.id)) = true := by
      rw [hc]
      show ((insertIfAbsent Comment.id s.comments [c]).any (fun x => x.id == c.id)) = true
      cases hb : s.comments.any (fun x => x.id == c.id) with
      | true => rw [insertIfAbsent_single_mem _ _ _ hb]; exact hb
      | false =>
        rw [insertIfAbsent_single_notmem _ _ _ hb, List.any_append]
        simp
    show ({ add_comments s [c] with
      comments := insertIfAbsent Comment.id (add_comments s [c]).comments [c2] })
        = add_comments s [c]
    rw [insertIfAbsent_single_mem _ _ _ hmem]
  · intro hnone
    have hany : s.comments.any (fun x => x.id == c.id) = false := by
      cases hb : s.comments.any (fun x => x.id == c.id) with
      | false => rfl
      | true =>
        obtain ⟨x, hx, hpx⟩ := List.any_eq_true.mp hb
        exact absurd hpx (List.filter_eq_nil_iff.mp hnone x hx)
    show (insertIfAbsent Comment.id s.comments [c]).filter (fun r => r.id == c.id) = [c]
    rw [insertIfAbsent_single_notmem _ _ _ hany, List.filter_append, hnone]
    simp
  · have hmem : ((add_submissions s [sub]).submissions.any
        (fun x => x.id == sub2.id)) = true := by
      rw [hs]
      show ((insertIfAbsent Submission.id s.submissions [sub]).any
        (fun x => x.id == sub.id)) = true
      cases hb : s.submissions.any (fun x => x.id == sub.id) with
      | true => rw [insertIfAbsent_single_mem _ _ _ hb]; exact hb
      | false =>
        rw [insertIfAbsent_single_notmem _ _ _ hb, List.any_append]
        simp
    show ({ add_submissions s [sub] with
      submissions := insertIfAbsent Submission.id (add_submissions s [sub]).submissions [sub2] })
        = add_submissions s [sub]
    rw [insertIfAbsent_single_mem _ _ _ hmem]
  · intro hnone
    have hany : s.submissions.any (fun x => x.id == sub.id) = false := by
      cases hb : s.submissions.any (fun x => x.id == sub.id) with
      | false => rfl
      | true =>
        obtain ⟨x, hx, hpx⟩ := List.any_eq_true.mp hb
        exact absurd hpx (List.filter_eq_nil_iff.mp hnone x hx)
    show (insertIfAbsent Submission.id s.submissions [sub]).filter
      (fun r => r.id == sub.id) = [sub]
    rw [insertIfAbsent_single_notmem _ _ _ hany, List.filter_append, hnone]
    simp

/-- C4 witness: writing comC1 (absent from the coherence cache) twice
stores exactly one row with its content, and the second write is a no-op;
likewise for the submission. -/
theorem upsert_idempotent_first_write_wins_witness :
    add_comments (add_comments coherenceState [comC1]) [comC1]
        = add_comments coherenceState [comC1]
    ∧ (add_comments coherenceState [comC1]).comments.filter
        (fun r => r.id == comC1.id) = [comC1]
    ∧ add_submissions (add_submissions coherenceState [subT]) [subT]
        = add_submissions coherenceState [subT] :=
  ⟨(upsert_idempotent_first_write_wins coherenceState comC1 comC1 subT subT rfl rfl).1,
   (upsert_idempotent_first_write_wins coherenceState comC1 comC1 subT subT rfl rfl).2.1
     (by decide),
   (upsert_idempotent_first_write_wins coherenceState comC1 comC1 subT subT rfl rfl).2.2.1⟩

/-- C10: in default mode, when the thread status is complete and the
incremental fetch bounded by the stored cursor yields nothing, get_thread
returns the cached comments and the cache state is exactly unchanged --
no comment insert and no status upsert. -/
theorem getThread_complete_no_delta_frame (ds : DataSource) (s : CacheState)
    (sid : String) (sub : Submission) (st : ThreadCacheStatus)
    (hsub : get_submission s sid = some sub)
    (hst : get_thread_cache_status s sid = some st)
    (hc : st.is_history_complete = true)
    (hempty : fetch_new_comments_from_submission (ds.thread_comment_pages sid)
      st.newest_item_cursor = []) :
    get_thread ds .DEFAULT s sid = (some (sub, get_submission_comments s sid), s) := by
  rw [get_thread_default_eq ds s sid sub hsub, hst]
  simp only [get_thread_default_sync, hc, if_true, hempty, List.nil_append]

/-- C10 witness: with the complete cached state of thread T and a stream
with nothing newer than cursor 3, get_thread leaves the state untouched. -/
theorem getThread_complete_no_delta_frame_witness :
    fetch_new_comments_from_submission (coherenceSource.thread_comment_pages "T")
        (some 3) = []
    ∧ get_thread coherenceSource .DEFAULT completeState "T"
        = (some (subT, get_submission_comments completeState "T"), completeState) :=
  ⟨rfl,
   getThread_complete_no_delta_frame coherenceSource completeState "T" subT
     { submission_id := "T", newest_item_cursor := some 3, is_history_complete := true }
     rfl rfl rfl rfl⟩

/-- C6 counterexample: in the coherence scenario the returned comment list
of get_thread is the full fetched stream concatenated with the cached rows,
so the already-cached comment c3 appears twice -- the claim that each
record id occurs at most once in the returned list is false. -/
theorem union_duplicate_id_counterexample :
    (get_thread coherenceSource .DEFAULT coherenceState "T").1
      = some (subT, [comC3, comC2, comC1, comC3])
    ∧ ([comC3, comC2, comC1, comC3].map Comment.id).count "c3" = 2 := by
  constructor
  · rfl
  · decide

/-- C6 amended: default-mode results are the concatenation of freshly
fetched rows and previously cached rows, freshly fetched first; each id
occurs at most once whenever the fresh ids are disjoint from the cached
ids (and each side carries no duplicate itself), but a freshly refetched
comment that was already cached occurs twice. -/
theorem union_fresh_first :
    (∀ (ds : DataSource) (s : CacheState) (u : String),
      (get_user_contributions ds .DEFAULT s u).1 =
        (fetch_new_submissions (ds.user_submission_pages u) (user_submission_stop s u)
           ++ get_users_submissions s u,
         fetch_new_comments_from_username (ds.user_comment_pages u) (user_comment_stop s u)
           ++ get_users_comments s u))
    ∧ (∀ (ds : DataSource) (s : CacheState) (sid : String) (sub : Submission),
        get_submission s sid = some sub →
        ∃ fresh, (get_thread ds .DEFAULT s sid).1
            = some (sub, fresh ++ get_submission_comments s sid)
          ∧ ((∀ i ∈ fresh.map Comment.id,
                i ∉ (get_submission_comments s sid).map Comment.id) →
             (fresh.map Comment.id).Nodup →
             ((get_submission_comments s sid).map Comment.id).Nodup →
             ((fresh ++ get_submission_comments s sid).map Comment.id).Nodup)) := by
  have hnd : ∀ (l1 l2 : List String), (∀ i ∈ l1, i ∉ l2) → l1.Nodup → l2.Nodup →
      (l1 ++ l2).Nodup := fun l1 l2 hd h1 h2 =>
    List.nodup_append.mpr ⟨h1, h2, fun a ha hb => (hd a ha) hb⟩
  constructor
  · intro ds s u
    rfl
  · intro ds s sid sub hsub
    rw [get_thread_default_eq ds s sid sub hsub]
    cases hst : get_thread_cache_status s sid with
    | none =>
      refine ⟨fetch_new_comments_from_submission (ds.thread_comment_pages sid) none,
        rfl, ?_⟩
      intro hdisj h1 h2
      rw [List.map_append]
      exact hnd _ _ hdisj h1 h2
    | some st =>
      by_cases hcomp : st.is_history_complete
      · cases hf : fetch_new_comments_from_submission (ds.thread_comment_pages sid)
          st.newest_item_cursor with
        | nil =>
          refine ⟨[], ?_, ?_⟩
          · simp only [get_thread_default_sync, hcomp, if_true, hf]
          · intro hdisj h1 h2
            rw [List.map_append]
            exact hnd _ _ hdisj h1 h2
        | cons c rest =>
          refine ⟨c :: rest, ?_, ?_⟩
          · simp only [get_thread_default_sync, hcomp, if_true, hf]
          · intro hdisj h1 h2
            rw [List.map_append]
            exact hnd _ _ hdisj h1 h2
      · refine ⟨fetch_new_comments_from_submission (ds.thread_comment_pages sid) none,
          ?_, ?_⟩
        · simp only [get_thread_default_sync, hcomp, Bool.false_eq_true, if_false]
        · intro hdisj h1 h2
          rw [List.map_append]
          exact hnd _ _ hdisj h1 h2

/-- C6 amended witness: the user-level shape at the coherence scenario, and
the thread-level shape with the fresh part made explicit. -/
theorem union_fresh_first_witness :
    ((get_user_contributions coherenceSource .DEFAULT coherenceState "alice").1 =
      (fetch_new_submissions (coherenceSource.user_submission_pages "alice")
         (user_submission_stop coherenceState "alice")
         ++ get_users_submissions coherenceState "alice",
       fetch_new_comments_from_username (coherenceSource.user_comment_pages "alice")
         (user_comment_stop coherenceState "alice")
         ++ get_users_comments coherenceState "alice"))
    ∧ ∃ fresh, (get_thread coherenceSource .DEFAULT coherenceState "T").1
        = some (subT, fresh ++ get_submission_comments coherenceState "T") :=
  ⟨union_fresh_first.1 coherenceSource coherenceState "alice",
   match union_fresh_first.2 coherenceSource coherenceState "T" subT rfl with
   | ⟨fresh, h1, _⟩ => ⟨fresh, h1⟩⟩

/-
Lemmas about the traced and abortable variants of the thread sync.
-/

theorem fetchPagesTraced_fst (stop : Option Int) (idx : Nat) (pages : List (List Comment)) :
    (fetchPagesTraced stop idx pages).1 = fetchPages Comment.created_utc stop pages := by
  induction pages generalizing idx with
  | nil => rfl
  | cons page rest ih =>
    by_cases h : (takeUntilStop Comment.created_utc stop page).2 <;>
      simp [fetchPagesTraced, fetchPages, h, ih]

theorem fetchPagesTraced_all_requests (stop : Option Int) (idx : Nat)
    (pages : List (List Comment)) :
    (fetchPagesTraced stop idx pages).2.all isPageRequest = true := by
  induction pages generalizing idx with
  | nil => rfl
  | cons page rest ih =>
    by_cases h : (takeUntilStop Comment.created_utc stop page).2 <;>
      simp [fetchPagesTraced, h, isPageRequest, ih]

theorem get_thread_default_traced_agrees (ds : DataSource) (s : CacheState) (sid : String) :
    (get_thread_default_traced ds s sid).1 = get_thread ds .DEFAULT s sid := by
  unfold get_thread_default_traced get_thread
  cases hsub : get_submission s sid with
  | some sub =>
    cases hst : get_thread_cache_status s sid with
    | none =>
      simp only [get_thread_default_sync, fetch_new_comments_from_submission,
        fetchPagesTraced_fst]
    | some st =>
      by_cases hc : st.is_history_complete
      · simp only [get_thread_default_sync, hc, if_true,
          fetch_new_comments_from_submission, fetchPagesTraced_fst]
        cases hf : fetchPages Comment.created_utc st.newest_item_cursor
          (ds.thread_comment_pages sid) <;> simp [fetchPagesTraced_fst, hf]
      · simp only [get_thread_default_sync, hc, Bool.false_eq_true, if_false,
          fetch_new_comments_from_submission, fetchPagesTraced_fst]
  | none =>
    cases hds : ds.submission_by_id sid with
    | none => rfl
    | some sub =>
      cases hst : get_thread_cache_status s sid with
      | none =>
        simp only [get_thread_default_sync, fetch_new_comments_from_submission,
          fetchPagesTraced_fst]
      | some st =>
        by_cases hc : st.is_history_complete
        · simp only [get_thread_default_sync, hc, if_true,
            fetch_new_comments_from_submission, fetchPagesTraced_fst]
          cases hf : fetchPages Comment.created_utc st.newest_item_cursor
            (ds.thread_comment_pages sid) <;> simp [fetchPagesTraced_fst, hf]
        · simp only [get_thread_default_sync, hc, Bool.false_eq_true, if_false,
            fetch_new_comments_from_submission, fetchPagesTraced_fst]

theorem nrap_skip_requests (l evs : List CacheEvent) (h : l.all isPageRequest = true) :
    noRequestAfterPersist false (l ++ evs) = noRequestAfterPersist false evs := by
  induction l with
  | nil => rfl
  | cons e rest ih =>
    rw [List.all_cons, Bool.and_eq_true] at h
    cases e with
    | pageRequested n =>
      simp only [List.cons_append, noRequestAfterPersist, if_false]
      exact ih h.2
    | commentsPersisted cs => simp [isPageRequest] at h
    | submissionsPersisted ss => simp [isPageRequest] at h
    | threadStatusWritten st => simp [isPageRequest] at h

theorem nrap_no_requests (l : List CacheEvent) (seen : Bool)
    (h : l.all (fun e => !isPageRequest e) = true) :
    noRequestAfterPersist seen l = true := by
  induction l generalizing seen with
  | nil => rfl
  | cons e rest ih =>
    rw [List.all_cons, Bool.and_eq_true] at h
    cases e with
    | pageRequested n => simp [isPageRequest] at h
    | commentsPersisted cs => exact ih true h.2
    | submissionsPersisted ss => exact ih seen h.2
    | threadStatusWritten st => exact ih seen h.2

theorem nrap_all_requests (l : List CacheEvent) (h : l.all isPageRequest = true) :
    noRequestAfterPersist false l = true := by
  have h2 := nrap_skip_requests l [] h
  rw [List.append_nil] at h2
  rw [h2]
  rfl

/-- C9 counterexample: in the coherence scenario the DEFAULT-mode thread
sync requests both pages of the stream before anything is persisted, so the
trace violates the property that each fetched page is persisted before the
next page is requested. -/
theorem page_persist_order_counterexample :
    eachPagePersistedBeforeNext false
        (get_thread_default_traced coherenceSource coherenceState "T").2 = false
    ∧ (get_thread_default_traced coherenceSource coherenceState "T").2.countP
        isPageRequest = 2 := by
  constructor
  · rfl
  · rfl

/-- C9 amended: the DEFAULT-mode thread sync consumes the whole comment
stream first and persists once afterwards -- no page is requested after a
comment batch has been persisted -- and a sync whose stream fails
mid-stream propagates the failure with the cache state exactly unchanged
(nothing persisted, is_history_complete not set), provided the submission
was already cached. -/
theorem batch_persist_after_stream (ds : DataSource) (s : CacheState) (sid : String)
    (sub : Submission) (ab : Bool) (hsub : get_submission s sid = some sub)
    (herr : (get_thread_default_abortable ds ab s sid).1 = Except.error ()) :
    noRequestAfterPersist false (get_thread_default_traced ds s sid).2 = true
    ∧ (get_thread_default_abortable ds ab s sid).2 = s := by
  constructor
  · unfold get_thread_default_traced
    rw [hsub]
    cases hst : get_thread_cache_status s sid with
    | none =>
      by_cases hemp : (fetchPagesTraced none 0 (ds.thread_comment_pages sid)).1.isEmpty <;>
        · simp only [hemp, if_true, Bool.false_eq_true, if_false, List.nil_append,
            List.append_assoc]
          rw [nrap_skip_requests _ _ (fetchPagesTraced_all_requests none 0 _)]
          apply nrap_no_requests
          simp [isPageRequest]
    | some st =>
      by_cases hc : st.is_history_complete
      · simp only [hc, if_true]
        cases hf : (fetchPagesTraced st.newest_item_cursor 0 (ds.thread_comment_pages sid)).1 with
        | nil =>
          simp only [List.nil_append]
          exact nrap_all_requests _ (fetchPagesTraced_all_requests _ 0 _)
        | cons c rest =>
          simp only [List.nil_append, List.append_assoc]
          rw [nrap_skip_requests _ _ (fetchPagesTraced_all_requests _ 0 _)]
          apply nrap_no_requests
          simp [isPageRequest]
      · by_cases hemp : (fetchPagesTraced none 0 (ds.thread_comment_pages sid)).1.isEmpty <;>
          · simp only [hc, Bool.false_eq_true, if_false, hemp, if_true, List.nil_append,
              List.append_assoc]
            rw [nrap_skip_requests _ _ (fetchPagesTraced_all_requests none 0 _)]
            apply nrap_no_requests
            simp [isPageRequest]
  · unfold get_thread_default_abortable at herr ⊢
    rw [hsub] at herr ⊢
    cases hst : get_thread_cache_status s sid with
    | none =>
      rw [hst] at herr
      simp only [get_thread_default_abortable_sync] at herr ⊢
      cases hf : fetchPagesAbortable none ab (ds.thread_comment_pages sid) with
      | error e => rfl
      | ok cs =>
        rw [hf] at herr
        simp at herr
    | some st =>
      rw [hst] at herr
      simp only [get_thread_default_abortable_sync] at herr ⊢
      by_cases hc : st.is_history_complete
      · rw [hc] at herr ⊢
        simp only [if_true] at herr ⊢
        cases hf : fetchPagesAbortable st.newest_item_cursor ab (ds.thread_comment_pages sid) with
        | error e => rfl
        | ok cs =>
          rw [hf] at herr
          cases cs <;> simp at herr
      · simp only [hc, Bool.false_eq_true, if_false] at herr ⊢
        cases hf : fetchPagesAbortable none ab (ds.thread_comment_pages sid) with
        | error e => rfl
        | ok cs =>
          rw [hf] at herr
          simp at herr

/-- C9 amended witness: the coherence scenario with a stream that fails
after its two pages -- the sync propagates the failure and leaves the
cache state exactly as it was. -/
theorem batch_persist_after_stream_witness :
    ((get_thread_default_abortable coherenceSource true coherenceState "T").1
      = Except.error ())
    ∧ noRequestAfterPersist false
        (get_thread_default_traced coherenceSource coherenceState "T").2 = true
    ∧ (get_thread_default_abortable coherenceSource true coherenceState "T").2
        = coherenceState :=
  ⟨rfl,
   (batch_persist_after_stream coherenceSource coherenceState "T" subT true rfl rfl).1,
   (batch_persist_after_stream coherenceSource coherenceState "T" subT true rfl rfl).2⟩

/-
Arena lemmas for the tree reconstruction.
-/

theorem addChild_keys (m : List (String × List String)) (p cid : String) :
    (addChild m p cid).map Prod.fst = m.map Prod.fst := by
  induction m with
  | nil => rfl
  | cons e rest ih =>
    by_cases h : e.1 == p <;> simp only [addChild, List.map_cons, h, if_true,
      Bool.false_eq_true, if_false] <;>
      exact congrArg (e.1 :: ·) (by simpa [addChild] using ih)

theorem hasNode_eq_isSome (m : List (String × List String)) (q : String) :
    hasNode m q = (lookupChildren m q).isSome := by
  induction m with
  | nil => rfl
  | cons e rest ih =>
    by_cases h : e.1 == q <;>
      simp [hasNode, lookupChildren, List.find?_cons, List.any_cons, h] <;>
      simpa [hasNode, lookupChildren] using ih

theorem hasNode_addChild (m : List (String × List String)) (p cid q : String) :
    hasNode (addChild m p cid) q = hasNode m q := by
  induction m with
  | nil => rfl
  | cons e rest ih =>
    by_cases h : e.1 == p <;>
      simp only [addChild, hasNode, List.map_cons, List.any_cons, h, if_true,
        Bool.false_eq_true, if_false] <;>
      exact congrArg (_ || ·) (by simpa [addChild, hasNode] using ih)

theorem addChild_absent (m : List (String × List String)) (p cid : String)
    (h : hasNode m p = false) : addChild m p cid = m := by
  induction m with
  | nil => rfl
  | cons e rest ih =>
    rw [hasNode, List.any_cons] at h
    rw [Bool.or_eq_false_iff] at h
    simp only [addChild, List.map_cons, h.1, Bool.false_eq_true, if_false]
    exact congrArg (e :: ·) (by simpa [addChild] using ih (by simpa [hasNode] using h.2))

theorem lookupChildren_cons (a : String) (l : List String)
    (m : List (String × List String)) (q : String) :
    lookupChildren ((a, l) :: m) q = if a == q then some l else lookupChildren m q := by
  by_cases h : a == q <;> simp [lookupChildren, List.find?_cons, h]

theorem hasNode_cons (a : String) (l : List String)
    (m : List (String × List String)) (q : String) :
    hasNode ((a, l) :: m) q = ((a == q) || hasNode m q) := by
  simp [hasNode, List.any_cons]

theorem addChild_cons (a : String) (l : List String)
    (m : List (String × List String)) (p cid : String) :
    addChild ((a, l) :: m) p cid
      = (if a == p then (a, l ++ [cid]) else (a, l)) :: addChild m p cid := by
  by_cases h : a == p
  · simp [addChild, h, eq_of_beq h]
  · have h2 : ¬a = p := fun hh => h (beq_iff_eq.mpr hh)
    simp [addChild, h, h2]

theorem lookupChildren_addChild (m : List (String × List String)) (p cid q : String) :
    lookupChildren (addChild m p cid) q
      = (lookupChildren m q).map (fun l => if q == p then l ++ [cid] else l) := by
  induction m with
  | nil => rfl
  | cons e rest ih =>
    obtain ⟨a, l⟩ := e
    rw [addChild_cons]
    by_cases hp : a == p
    · rw [if_pos hp, lookupChildren_cons, lookupChildren_cons]
      by_cases h : a == q
      · have hqp : (q == p) = true := by
          rw [← eq_of_beq h]
          exact hp
        rw [if_pos h, if_pos h]
        simp [hqp]
      · rw [if_neg h, if_neg h]
        exact ih
    · rw [if_neg hp, lookupChildren_cons, lookupChildren_cons]
      by_cases h : a == q
      · have hqp : (q == p) = false := by
          rw [beq_eq_false_iff_ne]
          intro hqp'
          exact hp (beq_iff_eq.mpr ((eq_of_beq h).trans hqp'))
        rw [if_pos h, if_pos h]
        simp [hqp]
      · rw [if_neg h, if_neg h]
        exact ih

@[simp] theorem totalChildren_nil : totalChildren [] = 0 := rfl

@[simp] theorem totalChildren_cons (e : String × List String)
    (m : List (String × List String)) :
    totalChildren (e :: m) = e.2.length + totalChildren m := by
  simp [totalChildren]

theorem totalChildren_append (m1 m2 : List (String × List String)) :
    totalChildren (m1 ++ m2) = totalChildren m1 + totalChildren m2 := by
  simp [totalChildren, List.sum_append]

theorem totalChildren_addChild (m : List (String × List String)) (p cid : String)
    (hnodup : (m.map Prod.fst).Nodup) (hmem : hasNode m p = true) :
    totalChildren (addChild m p cid) = totalChildren m + 1 := by
  induction m with
  | nil => simp [hasNode] at hmem
  | cons e rest ih =>
    obtain ⟨a, l⟩ := e
    rw [List.map_cons, List.nodup_cons] at hnodup
    rw [hasNode_cons] at hmem
    rw [addChild_cons]
    by_cases hp : a == p
    · have hrest : hasNode rest p = false := by
        cases hb : hasNode rest p with
        | false => rfl
        | true =>
          obtain ⟨x, hx, hpx⟩ := List.any_eq_true.mp hb
          have hmemmap : a ∈ rest.map Prod.fst := by
            rw [eq_of_beq hp, ← eq_of_beq hpx]
            exact List.mem_map_of_mem _ hx
          exact absurd hmemmap hnodup.1
      rw [if_pos hp, addChild_absent rest p cid hrest]
      simp [List.length_append]
      omega
    · rw [if_neg hp]
      rw [Bool.not_eq_true] at hp
      rw [hp, Bool.false_or] at hmem
      simp only [totalChildren_cons, ih hnodup.2 hmem]
      omega

theorem initNodes_fold_lookup (cs : List Comment) :
    ∀ (m : List (String × List String)) (q : String),
    lookupChildren (cs.foldl (fun m c => if hasNode m c.id then m else m ++ [(c.id, [])]) m) q
      = (lookupChildren m q).or (if idPresent cs q then some [] else none) := by
  induction cs with
  | nil =>
    intro m q
    simp [idPresent, Option.or_none]
  | cons c cs ih =>
    intro m q
    rw [List.foldl_cons, ih]
    by_cases hmem : hasNode m c.id
    · rw [if_pos hmem]
      by_cases hq : c.id == q
      · have hsome : (lookupChildren m q).isSome := by
          rw [← hasNode_eq_isSome, ← eq_of_beq hq]
          exact hmem
        cases hl : lookupChildren m q with
        | none => rw [hl] at hsome; simp at hsome
        | some v => rfl
      · have hred : idPresent (c :: cs) q = idPresent cs q := by
          simp [idPresent, List.any_cons, hq]
        rw [hred]
    · rw [if_neg hmem]
      have happ : lookupChildren (m ++ [(c.id, [])]) q
          = (lookupChildren m q).or (if c.id == q then some [] else none) := by
        unfold lookupChildren
        rw [List.find?_append]
        by_cases hq : c.id == q
        · cases hfm : m.find? (fun e => e.1 == q) <;> simp [List.find?, hq]
        · cases hfm : m.find? (fun e => e.1 == q) <;> simp [List.find?, hq]
      rw [happ, Option.or_assoc]
      have hmerge : ((if c.id == q then some ([] : List String) else none).or
            (if idPresent cs q then some [] else none))
          = (if idPresent (c :: cs) q then some [] else none) := by
        by_cases hq : c.id == q <;> by_cases hcs : idPresent cs q <;>
          simp [idPresent, List.any_cons, hq, hcs]
      rw [hmerge]

theorem initNodes_lookup (cs : List Comment) (q : String) :
    lookupChildren (initNodes cs) q = if idPresent cs q then some [] else none := by
  have h := initNodes_fold_lookup cs [] q
  simpa [initNodes, lookupChildren, Option.none_or] using h

theorem hasNode_initNodes (cs : List Comment) (q : String) :
    hasNode (initNodes cs) q = idPresent cs q := by
  rw [hasNode_eq_isSome, initNodes_lookup]
  by_cases h : idPresent cs q <;> simp [h]

theorem initNodes_fold_keys_nodup (cs : List Comment) :
    ∀ (m : List (String × List String)), (m.map Prod.fst).Nodup →
    (((cs.foldl (fun m c => if hasNode m c.id then m else m ++ [(c.id, [])]) m)).map
      Prod.fst).Nodup := by
  induction cs with
  | nil => intro m h; exact h
  | cons c cs ih =>
    intro m h
    rw [List.foldl_cons]
    by_cases hmem : hasNode m c.id
    · rw [if_pos hmem]
      exact ih m h
    · rw [if_neg hmem]
      apply ih
      rw [List.map_append]
      rw [List.nodup_append]
      refine ⟨h, List.nodup_singleton _, ?_⟩
      intro x hx hx2
      simp only [List.map_cons, List.map_nil, List.mem_singleton] at hx2
      subst hx2
      obtain ⟨e, he, hfst⟩ := List.mem_map.mp hx
      have : hasNode m c.id = true := by
        rw [hasNode, List.any_eq_true]
        exact ⟨e, he, by rw [hfst]; simp⟩
      exact absurd this (by simpa using hmem)

theorem initNodes_keys_nodup (cs : List Comment) :
    ((initNodes cs).map Prod.fst).Nodup :=
  initNodes_fold_keys_nodup cs [] (by simp)

theorem initNodes_fold_total (cs : List Comment) :
    ∀ (m : List (String × List String)),
    totalChildren (cs.foldl (fun m c => if hasNode m c.id then m else m ++ [(c.id, [])]) m)
      = totalChildren m := by
  induction cs with
  | nil => intro m; rfl
  | cons c cs ih =>
    intro m
    rw [List.foldl_cons]
    by_cases hmem : hasNode m c.id
    · rw [if_pos hmem]
      exact ih m
    · rw [if_neg hmem, ih, totalChildren_append]
      simp

theorem initNodes_total (cs : List Comment) : totalChildren (initNodes cs) = 0 :=
  initNodes_fold_total cs []

theorem map_append_nil_id (x : Option (List String)) :
    x.map (fun l => l ++ ([] : List String)) = x := by
  cases x <;> simp

theorem orderStep_spec (sid : String) (keys : String → Bool) (acc : TreeAcc) (c : Comment)
    (hkeys : ∀ p, hasNode acc.children p = keys p) :
    ((orderStep sid acc c).roots
        = acc.roots ++ (if promotedToRootK sid keys c then [c.id] else []))
    ∧ ((orderStep sid acc c).warned
        = acc.warned ++ (if warnedAboutK sid keys c then [c.id] else []))
    ∧ (∀ q, lookupChildren (orderStep sid acc c).children q
        = (lookupChildren acc.children q).map
            (fun l => l ++ (if attachesTo sid keys q c then [c.id] else [])))
    ∧ ((orderStep sid acc c).children.map Prod.fst = acc.children.map Prod.fst) := by
  cases hp : c.parent_id with
  | null =>
    refine ⟨by simp [orderStep, hp, pvalCorrupted, promotedToRootK],
      by simp [orderStep, hp, pvalCorrupted, warnedAboutK],
      fun q => ?_, by simp [orderStep, hp, pvalCorrupted]⟩
    simp [orderStep, hp, pvalCorrupted, attachesTo, map_append_nil_id]
  | pint n =>
    refine ⟨by simp [orderStep, hp, pvalCorrupted, promotedToRootK],
      by simp [orderStep, hp, pvalCorrupted, warnedAboutK],
      fun q => ?_, by simp [orderStep, hp, pvalCorrupted]⟩
    simp [orderStep, hp, pvalCorrupted, attachesTo, map_append_nil_id]
  | pstr p =>
    by_cases hempty : p == ""
    · refine ⟨by simp [orderStep, hp, pvalCorrupted, promotedToRootK, hempty],
        by simp [orderStep, hp, pvalCorrupted, warnedAboutK, hempty],
        fun q => ?_, by simp [orderStep, hp, pvalCorrupted, hempty]⟩
      simp [orderStep, hp, pvalCorrupted, attachesTo, hempty, map_append_nil_id]
    · by_cases hsid : p == sid
      · refine ⟨by simp [orderStep, hp, pvalCorrupted, promotedToRootK, hempty, hsid],
          by simp [orderStep, hp, pvalCorrupted, warnedAboutK, hempty, hsid],
          fun q => ?_, by simp [orderStep, hp, pvalCorrupted, hempty, hsid]⟩
        simp [orderStep, hp, pvalCorrupted, attachesTo, hempty, hsid, map_append_nil_id]
      · by_cases hkey : keys p
        · have hmem : hasNode acc.children p = true := by rw [hkeys]; exact hkey
          refine ⟨by simp [orderStep, hp, pvalCorrupted, promotedToRootK, hempty, hsid,
              hmem, hkey],
            by simp [orderStep, hp, pvalCorrupted, warnedAboutK, hempty, hsid, hmem, hkey],
            fun q => ?_,
            by simp [orderStep, hp, pvalCorrupted, hempty, hsid, hmem, addChild_keys]⟩
          have hatt : attachesTo sid keys q c = (q == p) := by
            simp [attachesTo, hp, hempty, hsid, hkey]
          simp only [orderStep, hp, pvalCorrupted, hempty, Bool.false_eq_true, if_false,
            hsid, hmem, if_true, hatt]
          rw [lookupChildren_addChild]
          cases lookupChildren acc.children q with
          | none => rfl
          | some l => by_cases hqp : q == p <;> simp [hqp]
        · have hmem : hasNode acc.children p = false := by
            rw [hkeys]
            simpa using hkey
          refine ⟨by simp [orderStep, hp, pvalCorrupted, promotedToRootK, hempty, hsid,
              hmem, hkey],
            by simp [orderStep, hp, pvalCorrupted, warnedAboutK, hempty, hsid, hmem, hkey],
            fun q => ?_, by simp [orderStep, hp, pvalCorrupted, hempty, hsid, hmem]⟩
          have hatt : attachesTo sid keys q c = false := by
            simp [attachesTo, hp, hempty, hsid, hkey]
          simp [orderStep, hp, pvalCorrupted, hempty, hsid, hmem, hatt, map_append_nil_id]

theorem order_fold_spec (sid : String) (keys : String → Bool) (cs : List Comment) :
    ∀ (acc : TreeAcc), (∀ p, hasNode acc.children p = keys p) →
    ((cs.foldl (orderStep sid) acc).roots
        = acc.roots ++ (cs.filter (promotedToRootK sid keys)).map Comment.id)
    ∧ ((cs.foldl (orderStep sid) acc).warned
        = acc.warned ++ (cs.filter (warnedAboutK sid keys)).map Comment.id)
    ∧ (∀ q, lookupChildren ((cs.foldl (orderStep sid) acc).children) q
        = (lookupChildren acc.children q).map
            (fun l => l ++ (cs.filter (attachesTo sid keys q)).map Comment.id)) := by
  induction cs with
  | nil =>
    intro acc hkeys
    refine ⟨by simp, by simp, fun q => ?_⟩
    simp [map_append_nil_id]
  | cons c cs ih =>
    intro acc hkeys
    obtain ⟨hr, hw, hch, hkl⟩ := orderStep_spec sid keys acc c hkeys
    have hasNode_keys : ∀ (m : List (String × List String)) (p : String),
        hasNode m p = (m.map Prod.fst).any (fun x => x == p) := by
      intro m p
      induction m with
      | nil => rfl
      | cons e rest ihm =>
        obtain ⟨a, l⟩ := e
        simp [hasNode_cons, List.any_cons, ihm]
    have hkeys2 : ∀ p, hasNode (orderStep sid acc c).children p = keys p := by
      intro p
      rw [hasNode_keys, hkl, ← hasNode_keys, hkeys]
    obtain ⟨ihr, ihw, ihch⟩ := ih (orderStep sid acc c) hkeys2
    refine ⟨?_, ?_, ?_⟩
    · rw [List.foldl_cons, ihr, hr, List.filter_cons]
      by_cases hpc : promotedToRootK sid keys c <;>
        simp [hpc, List.append_assoc]
    · rw [List.foldl_cons, ihw, hw, List.filter_cons]
      by_cases hpc : warnedAboutK sid keys c <;>
        simp [hpc, List.append_assoc]
    · intro q
      rw [List.foldl_cons, ihch q, hch q, Option.map_map, List.filter_cons]
      by_cases hq : attachesTo sid keys q c <;>
        · cases lookupChildren acc.children q <;>
            simp [hq, Function.comp, List.append_assoc]

theorem orderStep_count (sid : String) (acc : TreeAcc) (c : Comment)
    (hnodup : (acc.children.map Prod.fst).Nodup) :
    (orderStep sid acc c).roots.length + totalChildren (orderStep sid acc c).children
      = acc.roots.length + totalChildren acc.children + 1 := by
  unfold orderStep
  cases hp : c.parent_id with
  | null => simp [pvalCorrupted] <;> omega
  | pint n => simp [pvalCorrupted] <;> omega
  | pstr p =>
    by_cases hempty : p == ""
    · simp [pvalCorrupted, hempty] <;> omega
    · by_cases hsid : p == sid
      · simp [pvalCorrupted, hempty, hsid] <;> omega
      · by_cases hmem : hasNode acc.children p
        · simp only [pvalCorrupted, hempty, Bool.false_eq_true, if_false, hsid, hmem,
            if_true]
          rw [totalChildren_addChild acc.children p c.id hnodup hmem]
          omega
        · simp [pvalCorrupted, hempty, hsid, hmem] <;> omega

theorem order_fold_count (sid : String) (cs : List Comment) :
    ∀ (acc : TreeAcc), ((acc.children.map Prod.fst).Nodup) →
    ((cs.foldl (orderStep sid) acc).roots.length
        + totalChildren (cs.foldl (orderStep sid) acc).children)
      = acc.roots.length + totalChildren acc.children + cs.length := by
  induction cs with
  | nil => intro acc h; simp
  | cons c cs ih =>
    intro acc hnodup
    rw [List.foldl_cons]
    have hkl : (orderStep sid acc c).children.map Prod.fst = acc.children.map Prod.fst :=
      (orderStep_spec sid (fun p => hasNode acc.children p) acc c (fun _ => rfl)).2.2.2
    rw [ih (orderStep sid acc c) (by rw [hkl]; exact hnodup)]
    have hstep := orderStep_count sid acc c hnodup
    simp only [List.length_cons]
    omega

theorem order_placement_count (sid : String) (cs : List Comment) :
    (order_comments sid cs).roots.length + totalChildren (order_comments sid cs).children
      = cs.length := by
  unfold order_comments
  rw [order_fold_count sid cs _ (by simpa using initNodes_keys_nodup cs)]
  simp [initNodes_total]

theorem order_comments_spec (sid : String) (cs : List Comment) :
    ((order_comments sid cs).roots = (cs.filter (promotedToRoot sid cs)).map Comment.id)
    ∧ ((order_comments sid cs).warned = (cs.filter (warnedAbout sid cs)).map Comment.id)
    ∧ (∀ q, lookupChildren (order_comments sid cs).children q
        = (if idPresent cs q then
            some ((cs.filter (attachesTo sid (idPresent cs) q)).map Comment.id)
           else none)) := by
  obtain ⟨hr, hw, hch⟩ := order_fold_spec sid (idPresent cs) cs
    { roots := [], children := initNodes cs, warned := [] }
    (fun p => hasNode_initNodes cs p)
  refine ⟨?_, ?_, fun q => ?_⟩
  · rw [order_comments]
    rw [hr]
    rfl
  · rw [order_comments]
    rw [hw]
    rfl
  · rw [order_comments]
    rw [hch q]
    show (lookupChildren (initNodes cs) q).map _ = _
    rw [initNodes_lookup]
    by_cases h : idPresent cs q <;> simp [h]

/-- C7: on a well-formed batch (distinct nonempty ids, none equal to the
submission id, every parent either the submission id or an id of the
batch), order_comments builds the reference forest: the roots are exactly
the direct replies to the submission in input order, each comment's
recorded children are exactly its replies in input order, and every
comment of the batch is placed exactly once (total node count equals the
input length); the concrete four-comment example materializes to the
reference forest of size 4. -/
theorem order_comments_reference_forest :
    (∀ (sid : String) (cs : List Comment),
      (cs.map Comment.id).Nodup →
      (∀ c ∈ cs, c.id ≠ "") →
      (∀ c ∈ cs, c.id ≠ sid) →
      (∀ c ∈ cs, parentWellFormed sid cs c = true) →
      ((order_comments sid cs).roots
          = (cs.filter (fun c => c.parent_id == PVal.pstr sid)).map Comment.id)
      ∧ (∀ c ∈ cs, lookupChildren (order_comments sid cs).children c.id
          = some ((cs.filter (fun x => x.parent_id == PVal.pstr c.id)).map Comment.id))
      ∧ ((order_comments sid cs).roots.length
          + totalChildren (order_comments sid cs).children = cs.length))
    ∧ buildForest "S1" [treeC1, treeC2, treeC3, treeC4]
        = [CommentNode.mk treeC1
            [CommentNode.mk treeC2 [CommentNode.mk treeC4 []],
             CommentNode.mk treeC3 []]]
    ∧ forestSize (buildForest "S1" [treeC1, treeC2, treeC3, treeC4]) = 4 := by
  refine ⟨?_, rfl, rfl⟩
  intro sid cs hnodup hids hsid hpwf
  obtain ⟨hr, hw, hch⟩ := order_comments_spec sid cs
  refine ⟨?_, ?_, order_placement_count sid cs⟩
  · rw [hr]
    congr 1
    apply List.filter_congr
    intro x hx
    have hwf := hpwf x hx
    unfold parentWellFormed at hwf
    cases hpx : x.parent_id with
    | null => rw [hpx] at hwf; simp at hwf
    | pint n => rw [hpx] at hwf; simp at hwf
    | pstr p =>
      rw [hpx] at hwf
      by_cases hps : p == sid
      · have hrhs : (PVal.pstr p == PVal.pstr sid) = true :=
          beq_iff_eq.mpr (by rw [eq_of_beq hps])
        unfold promotedToRoot promotedToRootK pvalCorrupted
        by_cases h0 : p == "" <;> simp [hpx, h0, hps, hrhs]
      · have hpres : idPresent cs p = true := by
          rcases Bool.or_eq_true_iff.mp hwf with h | h
          · exact absurd h hps
          · exact h
        have hpne : (p == "") = false := by
          obtain ⟨y, hy, hyp⟩ := List.any_eq_true.mp hpres
          rw [beq_eq_false_iff_ne]
          intro hp0
          exact hids y hy (by rw [eq_of_beq hyp, hp0])
        have hrhs : (PVal.pstr p == PVal.pstr sid) = false := by
          rw [beq_eq_false_iff_ne]
          intro hEq
          injection hEq with hpe
          exact hps (beq_iff_eq.mpr hpe)
        unfold promotedToRoot promotedToRootK pvalCorrupted
        simp [hpx, hpne, hps, hpres, hrhs]
  · intro c hc
    rw [hch c.id]
    have hpres : idPresent cs c.id = true := by
      rw [idPresent, List.any_eq_true]
      exact ⟨c, hc, by simp⟩
    rw [if_pos hpres]
    congr 2
    apply List.filter_congr
    intro x hx
    cases hpx : x.parent_id with
    | null => simp [attachesTo, hpx]
    | pint n => simp [attachesTo, hpx]
    | pstr p =>
      by_cases hpc : (c.id == p)
      · have hpceq : p = c.id := (eq_of_beq hpc).symm
        subst hpceq
        have h1 : (c.id == "") = false := beq_eq_false_iff_ne.mpr (hids c hc)
        have h2 : (c.id == sid) = false := beq_eq_false_iff_ne.mpr (hsid c hc)
        simp [attachesTo, hpx, h1, h2, hpres]
      · have hrhs : (PVal.pstr p == PVal.pstr c.id) = false := by
          rw [beq_eq_false_iff_ne]
          intro hEq
          injection hEq with hpe
          exact hpc (beq_iff_eq.mpr hpe.symm)
        simp [attachesTo, hpx, hpc, hrhs]

/-- C7 witness: the reference example of four comments, with distinct ids,
every parent in the batch. -/
theorem order_comments_reference_forest_witness :
    ((order_comments "S1" [treeC1, treeC2, treeC3, treeC4]).roots
        = (([treeC1, treeC2, treeC3, treeC4].filter
            (fun c => c.parent_id == PVal.pstr "S1")).map Comment.id))
    ∧ lookupChildren (order_comments "S1" [treeC1, treeC2, treeC3, treeC4]).children "c1"
        = some ["c2", "c3"]
    ∧ (order_comments "S1" [treeC1, treeC2, treeC3, treeC4]).roots.length
        + totalChildren (order_comments "S1" [treeC1, treeC2, treeC3, treeC4]).children
        = 4 := by
  obtain ⟨h1, h2, h3⟩ := order_comments_reference_forest.1 "S1"
    [treeC1, treeC2, treeC3, treeC4] (by decide) (by decide) (by decide) (by decide)
  refine ⟨h1, ?_, h3⟩
  have h4 := h2 treeC1 (by decide)
  exact h4.trans (by rfl)

/-- C8: order_comments is total and degrades gracefully: for every input
(malformed parent fields included) the roots are exactly the comments
promoted to root rank in input order, the warned list exactly the
malformed or orphaned ones, every comment of the batch is placed exactly
once (nothing is dropped and nothing raises), and every comment whose
parent is corrupted or references an id absent from the batch lands in the
roots with a warning; the concrete orphan example yields roots c1, c5 with
c5 childless. -/
theorem order_comments_never_raises :
    (∀ (sid : String) (cs : List Comment),
      (order_comments sid cs).roots = (cs.filter (promotedToRoot sid cs)).map Comment.id)
    ∧ (∀ (sid : String) (cs : List Comment),
      (order_comments sid cs).warned = (cs.filter (warnedAbout sid cs)).map Comment.id)
    ∧ (∀ (sid : String) (cs : List Comment),
      (order_comments sid cs).roots.length
        + totalChildren (order_comments sid cs).children = cs.length)
    ∧ (∀ (sid : String) (cs : List Comment) (c : Comment), c ∈ cs →
        (pvalCorrupted c.parent_id = true ∨
          (∃ p, c.parent_id = PVal.pstr p ∧ (p == sid) = false ∧ idPresent cs p = false)) →
        c.id ∈ (order_comments sid cs).roots ∧ c.id ∈ (order_comments sid cs).warned)
    ∧ (order_comments "S1" [treeC1, treeC5]).roots = ["c1", "c5"]
    ∧ (order_comments "S1" [treeC1, treeC5]).warned = ["c5"]
    ∧ buildForest "S1" [treeC1, treeC5]
        = [CommentNode.mk treeC1 [], CommentNode.mk treeC5 []] := by
  refine ⟨fun sid cs => (order_comments_spec sid cs).1,
    fun sid cs => (order_comments_spec sid cs).2.1,
    order_placement_count, ?_, rfl, rfl, rfl⟩
  intro sid cs c hc hbad
  have hpromoted : promotedToRoot sid cs c = true := by
    unfold promotedToRoot promotedToRootK
    rcases hbad with hcorr | ⟨p, hpe, hpsid, hpabs⟩
    · rw [hcorr]
      rfl
    · rw [hpe]
      by_cases h0 : (p == "") <;> simp [pvalCorrupted, h0, hpsid, hpabs]
  have hwarned : warnedAbout sid cs c = true := by
    unfold warnedAbout warnedAboutK
    rcases hbad with hcorr | ⟨p, hpe, hpsid, hpabs⟩
    · rw [hcorr]
      rfl
    · rw [hpe]
      by_cases h0 : (p == "") <;> simp [pvalCorrupted, h0, hpsid, hpabs]
  constructor
  · rw [(order_comments_spec sid cs).1]
    exact List.mem_map_of_mem _ (List.mem_filter.mpr ⟨hc, hpromoted⟩)
  · rw [(order_comments_spec sid cs).2.1]
    exact List.mem_map_of_mem _ (List.mem_filter.mpr ⟨hc, hwarned⟩)

/-- C8 witness: the orphan comment c5 whose parent id is absent from the
batch is promoted to a root with a warning. -/
theorem order_comments_never_raises_witness :
    ((order_comments "S1" [treeC1, treeC5]).roots
      = ([treeC1, treeC5].filter (promotedToRoot "S1" [treeC1, treeC5])).map Comment.id)
    ∧ "c5" ∈ (order_comments "S1" [treeC1, treeC5]).roots
    ∧ "c5" ∈ (order_comments "S1" [treeC1, treeC5]).warned := by
  refine ⟨order_comments_never_raises.1 "S1" [treeC1, treeC5], ?_, ?_⟩
  · exact (order_comments_never_raises.2.2.2.1 "S1" [treeC1, treeC5] treeC5 (by decide)
      (Or.inr ⟨"missing_id", rfl, by decide, by decide⟩)).1
  · exact (order_comments_never_raises.2.2.2.1 "S1" [treeC1, treeC5] treeC5 (by decide)
      (Or.inr ⟨"missing_id", rfl, by decide, by decide⟩)).2

end RedditAnalysis
